import Mathlib

/-!
Verification development for the `salesforce-migration-automatic` library.

The TypeScript sources are embedded shallowly:

* JavaScript `Map` objects become association lists (`List (String × α)`)
  with `Map.get` as `List.lookup` and `Map.set` as `jsSet` (replace the
  value at an existing key in place, else append);
* JavaScript `Set` objects become duplicate-free `List String` values in
  insertion order (`jsHas` / `jsAdd`);
* code that throws becomes `Except String`;
* the remote clients are parameters: the schema client is a function
  `String → Option DescribeSObjectResult` and the data client's `create`
  is a function from an object name and a record batch to a result list.

Recursive drivers carry explicit fuel; running out of fuel is a distinct
`Except.error` so that no theorem can mistake an unfinished run for a
finished one.
-/

namespace SMA

/-- `Map.set` semantics on an association list: replace the value at an
existing key, keeping its position, else append the new binding. -/
def jsSet (m : List (String × α)) (k : String) (v : α) : List (String × α) :=
  match m with
  | [] => [(k, v)]
  | (k', v') :: rest => if k' = k then (k, v) :: rest else (k', v') :: jsSet rest k v

/-- `Set.has` on an insertion-ordered list. -/
def jsHas (s : List String) (x : String) : Bool :=
  s.contains x

/-- `Set.add` on an insertion-ordered list: append only when absent. -/
def jsAdd (s : List String) (x : String) : List String :=
  if s.contains x then s else s ++ [x]

/-!
The JavaScript string primitives are rendered on the character list of a
`String` with structural recursion, so that every definition evaluates
inside the kernel (`decide` / `rfl`); the built-in byte-position versions do
not reduce there.
-/

/-- `s.startsWith(p)` / `s.indexOf(p) === 0`. -/
def strStartsWith (s p : String) : Bool :=
  p.data.isPrefixOf s.data

/-- `s.substring(n)` (drop the first `n` characters). -/
def strDrop (s : String) (n : Nat) : String :=
  ⟨s.data.drop n⟩

/-- `s.split("__")` on the character list: scan left, cutting at each
non-overlapping occurrence of the double underscore. -/
def splitUUAux : List Char → List Char → List (List Char)
  | [], acc => [acc.reverse]
  | '_' :: '_' :: rest, acc => acc.reverse :: splitUUAux rest []
  | c :: rest, acc => splitUUAux rest (c :: acc)

/-- `identifier.split("__")`. -/
def jsSplitUU (s : String) : List String :=
  (splitUUAux s.data []).map (fun cs => ⟨cs⟩)

/-- util.ts `removeNamespace`: drop a leading `ns__` prefix when present
(`identifier.indexOf(ns + "__") === 0` is a starts-with test, and
`substring(ns.length + 2)` drops exactly the prefix). -/
def removeNamespace (identifier ns : String) : String :=
  if strStartsWith identifier (ns ++ "__")
  then strDrop identifier (ns.length + 2)
  else identifier

/-- util.ts `addNamespace`: prepend `ns__` exactly when the identifier splits
on `__` into two parts whose second part is `c`, `r` or `mdt`. -/
def addNamespace (identifier ns : String) : String :=
  match jsSplitUU identifier with
  | [_, second] =>
    if second = "c" ∨ second = "r" ∨ second = "mdt"
    then ns ++ "__" ++ identifier
    else identifier
  | _ => identifier

/-- util.ts `getMapValue`: exact lookup, then—when a non-empty default
namespace is configured—lookup of the namespace-stripped and then the
namespace-added variant.  The empty string is falsy in JavaScript, so an
empty namespace disables the fallback. -/
def getMapValue (map : List (String × α)) (identifier : String)
    (ns : Option String) : Option α :=
  match List.lookup identifier map with
  | some v => some v
  | none =>
    match ns with
    | none => none
    | some n =>
      if n = "" then none
      else
        match List.lookup (removeNamespace identifier n) map with
        | some v => some v
        | none => List.lookup (addNamespace identifier n) map

/-- util.ts `getRecordFieldValue`: the same fallback chain over a record's
field/value pairs. -/
def getRecordFieldValue (record : List (String × String)) (field : String)
    (ns : Option String) : Option String :=
  match List.lookup field record with
  | some v => some v
  | none =>
    match ns with
    | none => none
    | some n =>
      if n = "" then none
      else
        match List.lookup (removeNamespace field n) record with
        | some v => some v
        | none => List.lookup (addNamespace field n) record

/-- util.ts `includesInNamespace`: array inclusion with the same fallback. -/
def includesInNamespace (arr : List String) (identifier : String)
    (ns : Option String) : Bool :=
  if arr.contains identifier then true
  else
    match ns with
    | none => false
    | some n =>
      if n = "" then false
      else if arr.contains (removeNamespace identifier n) then true
      else arr.contains (addNamespace identifier n)

/-- The slice of a jsforce `Field` description the library reads. -/
structure FieldDescription where
  name : String
  type : String
  createable : Bool
  referenceTo : List String
deriving Repr, DecidableEq

/-- The slice of a jsforce `DescribeSObjectResult` the library reads. -/
structure DescribeSObjectResult where
  name : String
  fields : List FieldDescription
deriving Repr, DecidableEq

/-- describe.ts `DescribeOptions`. -/
structure DescribeOptions where
  defaultNamespace : Option String := none
deriving Repr, DecidableEq

/-- The description cache built by `describeSObjects`, keyed by the described
object's own `name` (verbatim, no case folding). -/
abbrev Descriptions := List (String × DescribeSObjectResult)

/-- describe.ts `findSObjectDescription`. -/
def findSObjectDescription (objectName : String) (descriptions : Descriptions)
    (options : DescribeOptions) : Option DescribeSObjectResult :=
  getMapValue descriptions objectName options.defaultNamespace

/-- describe.ts `findFieldDescription`: resolve the object, key its fields by
`field.name`, then look the field name up with the same fallback. -/
def findFieldDescription (objectName fieldName : String)
    (descriptions : Descriptions) (options : DescribeOptions) :
    Option FieldDescription :=
  match findSObjectDescription objectName descriptions options with
  | some description =>
    getMapValue (description.fields.map (fun f => (f.name, f))) fieldName
      options.defaultNamespace
  | none => none

/-- describe.ts: one `conn.describe(object)` call with the namespace-stripped
retry.  The remote schema client is the function argument `describe`;
`none` plays the role of the NOT_FOUND error. -/
def describeOne (describe : String → Option DescribeSObjectResult)
    (options : DescribeOptions) (object : String) :
    Except String DescribeSObjectResult :=
  match describe object with
  | some d => Except.ok d
  | none =>
    match options.defaultNamespace with
    | some ns =>
      let object2 := removeNamespace object ns
      if object ≠ object2 then
        match describe object2 with
        | some d => Except.ok d
        | none => Except.error ("No object schema found: " ++ object)
      else Except.error ("No object schema found: " ++ object)
    | none => Except.error ("No object schema found: " ++ object)

/-- describe.ts `describeSObjects`: describe every object and key the results
by `described.name`. -/
def describeSObjects (describe : String → Option DescribeSObjectResult)
    (objects : List String) (options : DescribeOptions) :
    Except String Descriptions :=
  (objects.mapM (describeOne describe options)).map
    (fun ds => ds.map (fun d => (d.name, d)))

/-- The `Describer` interface returned by `describeSObjects`: its two closures
capture the description map and the options. -/
structure Describer where
  descriptions : Descriptions
  options : DescribeOptions
deriving Repr, DecidableEq

def Describer.findSObjectDescription (d : Describer) (object : String) :
    Option DescribeSObjectResult :=
  SMA.findSObjectDescription object d.descriptions d.options

def Describer.findFieldDescription (d : Describer) (object fieldName : String) :
    Option FieldDescription :=
  SMA.findFieldDescription object fieldName d.descriptions d.options

/-! ### The load pipeline (load.ts) -/

/-- A value stored into an outgoing record by `convertToRecordIdPair`.
`parseFloat` results carry the matched literal: no property here depends on
the floating-point value itself, only on whether parsing succeeded. -/
inductive FieldValue where
  | vInt (n : Int)
  | vNum (lit : String)
  | vStr (s : String)
  | vBool (b : Bool)
  | vRef (r : Option String)
deriving Repr, DecidableEq

/-- An outgoing record: JavaScript object assignment is `jsSet`. -/
abbrev SFRecord := List (String × FieldValue)

/-- load.ts `LoadDataset`. -/
structure LoadDataset where
  object : String
  headers : List String
  rows : List (List String)
deriving Repr, DecidableEq

/-- The digit run a JavaScript numeric parse consumes, as a value. -/
def digitsToNat (l : List Char) : Nat :=
  l.foldl (fun n c => n * 10 + (c.toNat - 48)) 0

/-- JavaScript `parseInt` on base-10 literals: skip leading whitespace, take
an optional sign and then the longest digit run; NaN when no digit follows.
(The hex and exotic radix forms never occur in this code's CSV cells.) -/
def jsParseInt (s : String) : Option Int :=
  let t := s.data.dropWhile Char.isWhitespace
  let (neg, rest) :=
    match t with
    | '-' :: rest => (true, rest)
    | '+' :: rest => (false, rest)
    | _ => (false, t)
  let digits := rest.takeWhile Char.isDigit
  if digits.isEmpty then none
  else
    some (if neg then -(digitsToNat digits : Int) else (digitsToNat digits : Int))

/-- JavaScript `parseFloat`: skip leading whitespace, take an optional sign,
digits, an optional point and more digits; NaN when no digit was matched.
The matched literal is returned; its numeric value is never inspected. -/
def jsParseFloat (s : String) : Option String :=
  let t := s.data.dropWhile Char.isWhitespace
  let (sign, rest) :=
    match t with
    | '-' :: rest => ("-", rest)
    | '+' :: rest => ("+", rest)
    | _ => ("", t)
  let intPart := rest.takeWhile Char.isDigit
  let afterInt := rest.drop intPart.length
  let fracPart :=
    match afterInt with
    | '.' :: more => '.' :: more.takeWhile Char.isDigit
    | _ => []
  if intPart.isEmpty ∧ (fracPart = [] ∨ fracPart = ['.']) then none
  else some (sign ++ ⟨intPart⟩ ++ ⟨fracPart⟩)

/-- `c.toLowerCase()` for ASCII letters. -/
def lcChar (c : Char) : Char :=
  if 65 ≤ c.toNat ∧ c.toNat ≤ 90 then Char.ofNat (c.toNat + 32) else c

/-- `value.toLowerCase()`. -/
def strToLower (s : String) : String :=
  ⟨s.data.map lcChar⟩

/-- The false side of load.ts's boolean cell regex
`/^(|0|n|f|false)$/i`. -/
def jsFalseLiteral (value : String) : Bool :=
  let t := strToLower value
  t = "" || t = "0" || t = "n" || t = "f" || t = "false"

/-- One entry of the classifier's reference-column list. -/
structure RefField where
  field : String
  index : Nat
deriving Repr, DecidableEq

/-- One header of the classifier's header scan (the loop body of
`for (const [i, header] of headers.entries())`): remember the index of an
`id`-typed header, and collect a `reference`-typed header whose
`referenceTo` names at least one object the describer knows (the inner
`for … break` pushes at most once per header). -/
def scanStep (object : String) (describer : Describer)
    (acc : Option Nat × List RefField) (iv : Nat × String) :
    Option Nat × List RefField :=
  match describer.findFieldDescription object iv.2 with
  | none => acc
  | some field =>
    if field.type = "id" then (some iv.1, acc.2)
    else if field.type = "reference" then
      if field.referenceTo.any
          (fun refObject => (describer.findSObjectDescription refObject).isSome)
      then (acc.1, acc.2 ++ [⟨field.name, iv.1⟩])
      else acc
    else acc

/-- The classifier's header scan. -/
def scanColumns (object : String) (headers : List String)
    (describer : Describer) : Option Nat × List RefField :=
  (headers.enum).foldl (scanStep object describer) (none, [])

/-- One reference column of the classifier's inner row loop, threading the
mutable `targetIds` set, the uploadable flag and the blocker cell. -/
def classifyStep (row : List String) (id : String)
    (idMap : List (String × String))
    (acc : Bool × Option String × Option String × List String)
    (rf : RefField) : Bool × Option String × Option String × List String :=
  let refId := row.getD rf.index ""
  if refId ≠ "" then
    let tids :=
      if jsHas acc.2.2.2 refId then jsAdd acc.2.2.2 id
      else if jsHas acc.2.2.2 id then jsAdd acc.2.2.2 refId
      else acc.2.2.2
    if (List.lookup refId idMap).isNone then
      (false, some rf.field, some refId, tids)
    else (acc.1, acc.2.1, acc.2.2.1, tids)
  else acc

/-- The classifier's inner reference loop for one row.  The initial
uploadable flag `targetIds.size === 0 || targetIds.has(id)` is computed by
the caller on the set as it was before this row's propagation. -/
def classifyRow (row : List String) (id : String) (refFields : List RefField)
    (isUploadable0 : Bool) (targetIds : List String)
    (idMap : List (String × String)) :
    Bool × Option String × Option String × List String :=
  refFields.foldl (classifyStep row id idMap) (isUploadable0, none, none, targetIds)

/-- A `waitings` entry of the classifier. -/
structure Waiting where
  row : List String
  id : String
  blockingField : Option String
  blockingId : Option String
deriving Repr, DecidableEq

/-- The classifier's output, together with the `targetIds` set it mutated. -/
structure FilterResult where
  uploadables : List (List String)
  waitings : List Waiting
  notloadables : List (List String)
  targetIds : List String
deriving Repr, DecidableEq

/-- One row of the classifier's main loop.  (The source's `id`,
`isUploadable0` and classification locals are expanded in place; the
classification call is referentially transparent.) -/
def filterStep (idIndex : Nat) (refFields : List RefField)
    (idMap : List (String × String)) (st : FilterResult) (row : List String) :
    FilterResult :=
  if (List.lookup (row.getD idIndex "") idMap).isSome then
    ⟨st.uploadables, st.waitings, st.notloadables ++ [row], st.targetIds⟩
  else if (classifyRow row (row.getD idIndex "") refFields
      (st.targetIds.isEmpty || jsHas st.targetIds (row.getD idIndex ""))
      st.targetIds idMap).1 then
    ⟨st.uploadables ++ [row], st.waitings, st.notloadables,
      (classifyRow row (row.getD idIndex "") refFields
        (st.targetIds.isEmpty || jsHas st.targetIds (row.getD idIndex ""))
        st.targetIds idMap).2.2.2⟩
  else
    ⟨st.uploadables,
      st.waitings ++
        [⟨row, row.getD idIndex "",
          (classifyRow row (row.getD idIndex "") refFields
            (st.targetIds.isEmpty || jsHas st.targetIds (row.getD idIndex ""))
            st.targetIds idMap).2.1,
          (classifyRow row (row.getD idIndex "") refFields
            (st.targetIds.isEmpty || jsHas st.targetIds (row.getD idIndex ""))
            st.targetIds idMap).2.2.1⟩],
      st.notloadables,
      (classifyRow row (row.getD idIndex "") refFields
        (st.targetIds.isEmpty || jsHas st.targetIds (row.getD idIndex ""))
        st.targetIds idMap).2.2.2⟩

/-- load.ts `filterUploadableRecords`. -/
def filterUploadableRecords (dataset : LoadDataset) (targetIds : List String)
    (idMap : List (String × String)) (describer : Describer) :
    Except String FilterResult :=
  match (scanColumns dataset.object dataset.headers describer).1 with
  | none => Except.error ("No id type field is listed for: " ++ dataset.object)
  | some idIndex =>
    Except.ok <| dataset.rows.foldl
      (filterStep idIndex (scanColumns dataset.object dataset.headers describer).2 idMap)
      ⟨[], [], [], targetIds⟩

/-- load.ts `RecordIdPair`. -/
structure RecordIdPair where
  id : String
  record : SFRecord
deriving Repr, DecidableEq

/-- One cell of `convertToRecordIdPair`'s row walk (the body of the
`switch (type)`), accumulating the id cell seen so far and the outgoing
record. -/
def convertStep (dataset : LoadDataset) (idMap : List (String × String))
    (describer : Describer) (acc : Option String × SFRecord)
    (iv : Nat × String) : Option String × SFRecord :=
  let value := iv.2
  match describer.findFieldDescription dataset.object
      (dataset.headers.getD iv.1 "") with
  | none => acc
  | some field =>
    if field.type = "id" then (some value, acc.2)
    else if field.type = "int" then
      match jsParseInt value with
      | some num =>
        if field.createable then (acc.1, jsSet acc.2 field.name (.vInt num))
        else acc
      | none => acc
    else if field.type = "double" ∨ field.type = "currency" ∨
        field.type = "percent" then
      match jsParseFloat value with
      | some fnum =>
        if field.createable then (acc.1, jsSet acc.2 field.name (.vNum fnum))
        else acc
      | none => acc
    else if field.type = "date" ∨ field.type = "datetime" then
      if value ≠ "" ∧ field.createable then
        (acc.1, jsSet acc.2 field.name (.vStr value))
      else acc
    else if field.type = "boolean" then
      if field.createable then
        (acc.1, jsSet acc.2 field.name (.vBool (!jsFalseLiteral value)))
      else acc
    else if field.type = "reference" then
      if field.createable then
        (acc.1, jsSet acc.2 field.name (.vRef (List.lookup value idMap)))
      else acc
    else
      if field.createable then
        (acc.1, jsSet acc.2 field.name (.vStr value))
      else acc

/-- load.ts `convertToRecordIdPair`: walk the row's cells against the resolved
field descriptions and build the outgoing record; fail when the collected id
is still falsy at the end. -/
def convertToRecordIdPair (dataset : LoadDataset) (row : List String)
    (idMap : List (String × String)) (describer : Describer) :
    Except String RecordIdPair :=
  match (row.enum).foldl (convertStep dataset idMap describer) (none, []) with
  | (none, _) => Except.error ("No id type field is found: " ++ dataset.object)
  | (some id, record) =>
    if id = "" then Except.error ("No id type field is found: " ++ dataset.object)
    else Except.ok ⟨id, record⟩

/-- One element of a `create` call's result array. -/
structure CreateResult where
  success : Bool
  id : String
  errors : List String
deriving Repr, DecidableEq

/-- The remote `create` batch call: object API name and record batch in,
positional results out. -/
abbrev CreateFn := String → List SFRecord → List CreateResult

/-- A `successes` entry of `UploadStatus`. -/
structure SuccessEntry where
  object : String
  origId : String
  newId : String
  record : SFRecord
deriving Repr, DecidableEq

/-- A `failures` entry of `UploadStatus`. -/
structure FailureEntry where
  object : String
  origId : String
  errors : List String
  record : SFRecord
deriving Repr, DecidableEq

/-- A `blocked` entry of `UploadStatus`. -/
structure BlockedEntry where
  object : String
  origId : String
  blockingField : Option String
  blockingId : Option String
deriving Repr, DecidableEq

/-- load.ts `UploadStatus` (the revision under `src/src/types.ts`, which has
no `idMap` member; the run's final map is reported separately by the
embedding, see `RunResult`). -/
structure UploadStatus where
  totalCount : Nat
  successes : List SuccessEntry
  failures : List FailureEntry
  blocked : List BlockedEntry
deriving Repr, DecidableEq

/-- `rets.forEach((ret, i) => …)` inside `uploadRecords`: pair the results
with the record/id pairs positionally, pushing a success (and binding
`idMap[origId] := ret.id`) or a failure per result.  Results beyond the
request batch would dereference `undefined` in JavaScript, which the
embedding surfaces as an error; requests beyond the result list are silently
dropped, as in the source. -/
def zipCreateResults (object : String) (rets : List CreateResult)
    (pairs : List RecordIdPair) (idMap : List (String × String)) :
    Except String (List SuccessEntry × List FailureEntry × List (String × String)) :=
  match rets, pairs with
  | [], _ => Except.ok ([], [], idMap)
  | _ :: _, [] => Except.error "TypeError: cannot read id of undefined"
  | ret :: rets', pair :: pairs' =>
    if ret.success then
      match zipCreateResults object rets' pairs' (jsSet idMap pair.id ret.id) with
      | Except.ok (s, f, m) =>
        Except.ok (⟨object, pair.id, ret.id, pair.record⟩ :: s, f, m)
      | Except.error e => Except.error e
    else
      match zipCreateResults object rets' pairs' idMap with
      | Except.ok (s, f, m) =>
        Except.ok (s, ⟨object, pair.id, ret.errors, pair.record⟩ :: f, m)
      | Except.error e => Except.error e

/-- load.ts `uploadRecords`: for each object batch, resolve the object
description, fire `create` on `description.name`, and fold the positional
results into successes, failures and the growing id map. -/
def uploadRecords (create : CreateFn)
    (uploadings : List (String × List RecordIdPair))
    (idMap : List (String × String)) (describer : Describer) :
    Except String (List SuccessEntry × List FailureEntry × List (String × String)) :=
  match uploadings with
  | [] => Except.ok ([], [], idMap)
  | (object, recordIdPairs) :: rest =>
    match describer.findSObjectDescription object with
    | none => Except.error ("No object description found: " ++ object)
    | some description =>
      match zipCreateResults object
          (create description.name (recordIdPairs.map (fun p => p.record)))
          recordIdPairs idMap with
      | Except.error e => Except.error e
      | Except.ok (s1, f1, m1) =>
        match uploadRecords create rest m1 describer with
        | Except.error e => Except.error e
        | Except.ok (s2, f2, m2) => Except.ok (s1 ++ s2, f1 ++ f2, m2)

/-- load.ts `calcTotalUploadCount`. -/
def calcTotalUploadCount (datasets : List LoadDataset) : Nat :=
  datasets.foldl (fun totalCount dataset => totalCount + dataset.rows.length) 0

/-- The per-pass classification/conversion sweep of `uploadDatasets`:
classify every dataset, convert its uploadables, collect the per-object
batches (`uploadings.set(dataset.object, pairs)`), replace each dataset's
rows by its waitings, and accumulate this pass's blocked entries. -/
structure PassResult where
  uploadings : List (String × List RecordIdPair)
  datasets : List LoadDataset
  blocked : List BlockedEntry
  targetIds : List String
deriving Repr, DecidableEq

def uploadPassStep (idMap : List (String × String)) (describer : Describer)
    (st : PassResult) (dataset : LoadDataset) : Except String PassResult :=
  match filterUploadableRecords dataset st.targetIds idMap describer with
  | Except.error e => Except.error e
  | Except.ok res =>
    match res.uploadables.mapM
        (fun row => convertToRecordIdPair dataset row idMap describer) with
    | Except.error e => Except.error e
    | Except.ok pairs =>
      Except.ok
        ⟨(if pairs.length > 0 then jsSet st.uploadings dataset.object pairs
          else st.uploadings),
         st.datasets ++ [{ dataset with rows := res.waitings.map (fun w => w.row) }],
         st.blocked ++ res.waitings.map
           (fun w => ⟨dataset.object, w.id, w.blockingField, w.blockingId⟩),
         res.targetIds⟩

/-- The `for (const dataset of datasets)` loop of a pass. -/
def uploadPassGo (idMap : List (String × String)) (describer : Describer) :
    List LoadDataset → PassResult → Except String PassResult
  | [], st => Except.ok st
  | dataset :: rest, st =>
    match uploadPassStep idMap describer st dataset with
    | Except.error e => Except.error e
    | Except.ok st' => uploadPassGo idMap describer rest st'

def uploadPass (datasets : List LoadDataset) (targetIds : List String)
    (idMap : List (String × String)) (describer : Describer) :
    Except String PassResult :=
  uploadPassGo idMap describer datasets ⟨[], [], [], targetIds⟩

/-- The run state the recursive driver threads (the source mutates
`datasets`, `targetIds` and `idMap` in place and returns only the status). -/
structure RunResult where
  status : UploadStatus
  idMap : List (String × String)
  targetIds : List String
  datasets : List LoadDataset
deriving Repr, DecidableEq

/-- load.ts `uploadDatasets`: run a pass; when it produced no uploading the
pass is the fixpoint and the status accumulated so far is returned (the
current pass's `blocked` list is discarded—this is the behaviour under
`src/src/types.ts`); otherwise submit the batches, merge the results into
the status (with `blocked` set to this pass's waitings) and recurse.  The
explicit fuel bounds the recursion; exhausting it is an error distinct from
any source behaviour. -/
def uploadDatasets (create : CreateFn) (describer : Describer) :
    Nat → List LoadDataset → List String → List (String × String) →
    UploadStatus → Except String RunResult
  | 0, _, _, _, _ => Except.error "fuel exhausted"
  | fuel + 1, datasets, targetIds, idMap, uploadStatus =>
    match uploadPass datasets targetIds idMap describer with
    | Except.error e => Except.error e
    | Except.ok pass =>
      if pass.uploadings.length > 0 then
        match uploadRecords create pass.uploadings idMap describer with
        | Except.error e => Except.error e
        | Except.ok (successes, failures, idMap') =>
          uploadDatasets create describer fuel pass.datasets pass.targetIds idMap'
            ⟨uploadStatus.totalCount, uploadStatus.successes ++ successes,
             uploadStatus.failures ++ failures, pass.blocked⟩
      else
        Except.ok ⟨uploadStatus, idMap, pass.targetIds, pass.datasets⟩

/-- `UploadOptions` of the current `types.ts` revision (under
`src/src/describe.ts`): a default namespace, CSV options (not modelled) and
an id-map seed. -/
structure UploadOptions where
  defaultNamespace : Option String := none
  idMap : List (String × String) := []
deriving Repr, DecidableEq

/-- Apply a seed map entry by entry with `Map.set` semantics. -/
def seedIdMap (base : List (String × String)) (seeds : List (String × String)) :
    List (String × String) :=
  seeds.foldl (fun m kv => jsSet m kv.1 kv.2) base

/-- Modelled from the spec: the `upload` entry of the revision that consumes
`UploadOptions.idMap` is not in the snapshot (no code under src/ reads the
option; only its declaration is present).  Per §3 ("The IdMap is created
empty (or seeded) at run start") and §4.6 ("idMap := resolver output (or
seeded by caller)") the run's initial IdMap is the mapping-policy resolver
output overlaid with the caller's seed; the resolver needs remote queries
and is taken here as the parameter `resolvedIdMap`.  The snapshot's
`upload` fixes the rest: `targetIds` starts empty and the total count is
computed once up front.  The fuel `totalCount + 1` dominates the number of
productive passes, each of which removes at least one row. -/
def upload (create : CreateFn) (describer : Describer)
    (datasets : List LoadDataset) (resolvedIdMap : List (String × String))
    (options : UploadOptions) : Except String RunResult :=
  let totalCount := calcTotalUploadCount datasets
  let targetIds : List String := []
  let idMap := seedIdMap resolvedIdMap options.idMap
  uploadDatasets create describer (totalCount + 1) datasets targetIds idMap
    ⟨totalCount, [], [], []⟩

/-! ### The dump pipeline (dump.ts) -/

/-- A `fields` / `ignoreFields` value: a comma-separated string or a list. -/
inductive StrOrList where
  | str (s : String)
  | list (l : List String)
deriving Repr, DecidableEq

/-- `s.split(",")` on the character list. -/
def splitCommaAux : List Char → List Char → List (List Char)
  | [], acc => [acc.reverse]
  | ',' :: rest, acc => acc.reverse :: splitCommaAux rest []
  | c :: rest, acc => splitCommaAux rest (c :: acc)

/-- Trim surrounding whitespace. -/
def strTrim (s : String) : String :=
  ⟨((s.data.dropWhile Char.isWhitespace).reverse.dropWhile
      Char.isWhitespace).reverse⟩

/-- Modelled from the spec: the helper `toStringList` of the latest util.ts
is not in the snapshot.  Per §4.7 "`fields`/`ignoreFields` may be a
comma-separated string or a list"; a string splits on commas surrounded by
optional blanks (the snapshot splits `keyFields` with `/\s*,\s*/`), a list
stands for itself. -/
def toStringList : StrOrList → List String
  | .str s => ((splitCommaAux s.data []).map (fun cs => (⟨cs⟩ : String))).map strTrim
  | .list l => l

/-- dump.ts `DumpQuery` (the `target="query"` refinements—condition, order,
limit, offset, scope—live in the seed evaluation, which the embedding takes
as a parameter). -/
structure DumpQuery where
  object : String
  target : String
  fields : Option StrOrList := none
  ignoreFields : Option StrOrList := none
deriving Repr, DecidableEq

/-- dump.ts `DumpOptions`. -/
structure DumpOptions where
  defaultNamespace : Option String := none
  maxFetchSize : Option Nat := none
  idMap : List (String × String) := []
deriving Repr, DecidableEq

/-- A fetched record: field name to cell value (ids are strings; a null cell
is the empty string, which is falsy exactly like the source's checks). -/
abbrev DumpRecord := List (String × String)

/-- The target instance's data, per object name.  SOQL execution is modelled
semantically: a `WHERE Id IN (…)` or `WHERE F IN (…) OR …` query filters the
object's records (column projection is not modelled: no property here reads
a column the query did not select). -/
abbrev TargetDB := List (String × List DumpRecord)

def dbGet (db : TargetDB) (object : String) : List DumpRecord :=
  (List.lookup object db).getD []

/-- `record.Id`. -/
def recId (record : DumpRecord) : String :=
  (List.lookup "Id" record).getD ""

/-- dump.ts `getTargetFieldDefinitions`: `fields` wins, else `ignoreFields`
subtracts, else the whole schema. -/
def getTargetFieldDefinitions (query : DumpQuery) (describer : Describer) :
    Except String (List FieldDescription) :=
  let queryFields := query.fields.map toStringList
  let ignoreFields := query.ignoreFields.map toStringList
  match describer.findSObjectDescription query.object with
  | none =>
    Except.error ("No object description information found: " ++ query.object)
  | some description =>
    Except.ok <|
      match queryFields with
      | some qf => description.fields.filter (fun f => qf.contains f.name)
      | none =>
        match ignoreFields with
        | some igf => description.fields.filter (fun f => !igf.contains f.name)
        | none => description.fields

/-- dump.ts `getTargetFields`. -/
def getTargetFields (query : DumpQuery) (describer : Describer) :
    Except String (List String) :=
  (getTargetFieldDefinitions query describer).map (fun fs => fs.map (fun f => f.name))

/-- `executeQuery`'s `maxFetch(options.maxFetchSize ?? 10000)` bound. -/
def applyMaxFetch (options : DumpOptions) (records : List DumpRecord) :
    List DumpRecord :=
  records.take (options.maxFetchSize.getD 10000)

/-- dump.ts `getFetchingIds`: over every already-fetched record of every
object, collect values of createable reference fields pointing at `object`
that are not yet in `fetchedIds`. -/
def getFetchingIds (object : String)
    (fetchedRecordsMap : List (String × List DumpRecord))
    (fetchedIds : List String) (describer : Describer)
    (options : DumpOptions) : List String :=
  fetchedRecordsMap.foldl
    (fun fetchingIds entry =>
      match describer.findSObjectDescription entry.1 with
      | none => fetchingIds
      | some description =>
        description.fields.foldl
          (fun fetchingIds field =>
            if field.createable ∧ field.type = "reference" ∧
                includesInNamespace field.referenceTo object
                  options.defaultNamespace then
              entry.2.foldl
                (fun fetchingIds record =>
                  match getRecordFieldValue record field.name
                      options.defaultNamespace with
                  | some refId =>
                    if refId ≠ "" ∧ ¬ fetchedIds.contains refId then
                      jsAdd fetchingIds refId
                    else fetchingIds
                  | none => fetchingIds)
                fetchingIds
            else fetchingIds)
          fetchingIds)
    []

/-- dump.ts `fetchDependentRecords`: `SELECT … WHERE Id IN (fetchingIds)`. -/
def fetchDependentRecords (db : TargetDB) (query : DumpQuery)
    (fetchedRecordsMap : List (String × List DumpRecord))
    (fetchedIds : List String) (describer : Describer)
    (options : DumpOptions) : Except String (List DumpRecord) :=
  match getTargetFields query describer with
  | Except.error e => Except.error e
  | Except.ok _ =>
    if (getFetchingIds query.object fetchedRecordsMap fetchedIds describer
        options).length = 0 then Except.ok []
    else
      Except.ok <| applyMaxFetch options <|
        (dbGet db query.object).filter
          (fun r => (getFetchingIds query.object fetchedRecordsMap fetchedIds
            describer options).contains (recId r))

/-- The triple of maps the dump loop threads (the source mutates them in
place). -/
structure DumpState where
  fetchedRecordsMap : List (String × List DumpRecord)
  fetchedIdsMap : List (String × List String)
  newlyFetchedIdsMap : List (String × List String)
deriving Repr, DecidableEq

/-- The `for (const query of queries)` walker shared by the two expansion
phases. -/
def dumpQueriesGo (step : DumpState → DumpQuery → Except String DumpState) :
    List DumpQuery → DumpState → Except String DumpState
  | [], st => Except.ok st
  | query :: rest, st =>
    match step st query with
    | Except.error e => Except.error e
    | Except.ok st' => dumpQueriesGo step rest st'

/-- One `related` query of `fetchAllDependentRecords`: fetch the dependent
records and push them (their ids were not fetched before, by construction of
`getFetchingIds`). -/
def dependentStep (db : TargetDB) (describer : Describer)
    (options : DumpOptions) (st : DumpState) (query : DumpQuery) :
    Except String DumpState :=
  if query.target ≠ "related" then Except.ok st
  else
    match fetchDependentRecords db query st.fetchedRecordsMap
        ((List.lookup query.object st.fetchedIdsMap).getD []) describer options with
    | Except.error e => Except.error e
    | Except.ok records =>
      Except.ok
        { fetchedRecordsMap := jsSet st.fetchedRecordsMap query.object
            ((List.lookup query.object st.fetchedRecordsMap).getD [] ++ records),
          fetchedIdsMap := jsSet st.fetchedIdsMap query.object
            (records.foldl (fun ids r => jsAdd ids (recId r))
              ((List.lookup query.object st.fetchedIdsMap).getD [])),
          newlyFetchedIdsMap := jsSet st.newlyFetchedIdsMap query.object
            (records.foldl (fun ids r => jsAdd ids (recId r)) []) }

/-- dump.ts `fetchAllDependentRecords`: walk the `related` queries starting
from a fresh newly-fetched map. -/
def fetchAllDependentRecords (db : TargetDB) (queries : List DumpQuery)
    (st : DumpState) (describer : Describer) (options : DumpOptions) :
    Except String DumpState :=
  dumpQueriesGo (dependentStep db describer options) queries
    { st with newlyFetchedIdsMap := [] }

/-- dump.ts `getParentRelationsMap`: reference fields of `object` paired with
the newly fetched ids of their referenced objects. -/
def getParentRelationsMap (object : String)
    (newlyFetchedIdsMap : List (String × List String)) (describer : Describer)
    (options : DumpOptions) : Except String (List (String × List String)) :=
  match describer.findSObjectDescription object with
  | none => Except.error ("No object description found: " ++ object)
  | some description =>
    Except.ok <| description.fields.foldl
      (fun parentRelationsMap field =>
        if field.createable ∧ field.type = "reference" then
          field.referenceTo.foldl
            (fun parentRelationsMap refObject =>
              match getMapValue newlyFetchedIdsMap refObject
                  options.defaultNamespace with
              | none => parentRelationsMap
              | some newlyFetchedIds =>
                if newlyFetchedIds.length = 0 then parentRelationsMap
                else
                  let refIds := newlyFetchedIds.foldl jsAdd
                    ((List.lookup field.name parentRelationsMap).getD [])
                  jsSet parentRelationsMap field.name refIds)
            parentRelationsMap
        else parentRelationsMap)
      []

/-- dump.ts `fetchRelatedRecords`:
`SELECT … WHERE F₁ IN (…) OR F₂ IN (…) …`. -/
def fetchRelatedRecords (db : TargetDB) (query : DumpQuery)
    (newlyFetchedIdsMap : List (String × List String)) (describer : Describer)
    (options : DumpOptions) : Except String (List DumpRecord) :=
  match getTargetFields query describer with
  | Except.error e => Except.error e
  | Except.ok _ =>
    match getParentRelationsMap query.object newlyFetchedIdsMap describer
        options with
    | Except.error e => Except.error e
    | Except.ok conditions =>
      if conditions.length = 0 then Except.ok []
      else
        Except.ok <| applyMaxFetch options <|
          (dbGet db query.object).filter
            (fun r => conditions.any
              (fun c =>
                match List.lookup c.1 r with
                | some v => c.2.contains v
                | none => false))

/-- The record loop of `fetchAllRelatedRecords`: push each record whose Id
is not yet in the (evolving) fetched set, extending all three accumulators
together. -/
def relatedAdd (records : List DumpRecord)
    (acc : List DumpRecord × List String × List String) :
    List DumpRecord × List String × List String :=
  records.foldl
    (fun acc record =>
      if ¬ acc.2.1.contains (recId record) then
        (acc.1 ++ [record], acc.2.1 ++ [recId record], acc.2.2 ++ [recId record])
      else acc)
    acc

/-- One `related` query of `fetchAllRelatedRecords`. -/
def relatedStep (db : TargetDB) (describer : Describer)
    (options : DumpOptions) (st : DumpState) (query : DumpQuery) :
    Except String DumpState :=
  if query.target ≠ "related" then Except.ok st
  else
    match fetchRelatedRecords db query st.newlyFetchedIdsMap describer options with
    | Except.error e => Except.error e
    | Except.ok records =>
      Except.ok
        { fetchedRecordsMap := jsSet st.fetchedRecordsMap query.object
            (relatedAdd records
              ((List.lookup query.object st.fetchedRecordsMap).getD [],
               (List.lookup query.object st.fetchedIdsMap).getD [],
               (List.lookup query.object st.newlyFetchedIdsMap).getD [])).1,
          fetchedIdsMap := jsSet st.fetchedIdsMap query.object
            (relatedAdd records
              ((List.lookup query.object st.fetchedRecordsMap).getD [],
               (List.lookup query.object st.fetchedIdsMap).getD [],
               (List.lookup query.object st.newlyFetchedIdsMap).getD [])).2.1,
          newlyFetchedIdsMap := jsSet st.newlyFetchedIdsMap query.object
            (relatedAdd records
              ((List.lookup query.object st.fetchedRecordsMap).getD [],
               (List.lookup query.object st.fetchedIdsMap).getD [],
               (List.lookup query.object st.newlyFetchedIdsMap).getD [])).2.2 }

/-- dump.ts `fetchAllRelatedRecords`: walk the `related` queries. -/
def fetchAllRelatedRecords (db : TargetDB) (queries : List DumpQuery)
    (st : DumpState) (describer : Describer) (options : DumpOptions) :
    Except String DumpState :=
  dumpQueriesGo (relatedStep db describer options) queries st

/-- dump.ts `calcFetchedCount` (the per-object breakdown feeds only the
progress callback and is dropped). -/
def calcFetchedCount (fetchedIdsMap : List (String × List String)) : Nat :=
  fetchedIdsMap.foldl (fun fetchedCount e => fetchedCount + e.2.length) 0

/-- dump.ts `queryPrimaryRecords`: run every seed query and key its records
and the set of their ids by the query's object.  The seed SOQL (condition,
order, limit, offset, scope) is abstracted into the `seedRecords`
parameter; `executeQuery`'s `maxFetch` bound still applies. -/
def queryPrimaryRecords (seedRecords : DumpQuery → List DumpRecord)
    (queries : List DumpQuery) (options : DumpOptions) : DumpState :=
  queries.foldl
    (fun (st : DumpState) query =>
      if query.target ≠ "query" then st
      else
        let records := applyMaxFetch options (seedRecords query)
        let ids := records.foldl (fun ids r => jsAdd ids (recId r)) []
        { st with
            fetchedRecordsMap := jsSet st.fetchedRecordsMap query.object records,
            fetchedIdsMap := jsSet st.fetchedIdsMap query.object ids })
    ⟨[], [], []⟩

/-- The closure loop of `dumpAsCSVData`: while the previous round's count is
below the current one, run the related expansion and then the dependent
expansion.  Fuel exhaustion is an error distinct from reaching the
fixpoint. -/
def dumpLoop (db : TargetDB) (queries : List DumpQuery) (describer : Describer)
    (options : DumpOptions) :
    Nat → Nat → DumpState → Except String DumpState
  | 0, _, _ => Except.error "fuel exhausted"
  | fuel + 1, prevCount, st =>
    if prevCount < calcFetchedCount st.fetchedIdsMap then
      match fetchAllRelatedRecords db queries st describer options with
      | Except.error e => Except.error e
      | Except.ok st1 =>
        match fetchAllDependentRecords db queries st1 describer options with
        | Except.error e => Except.error e
        | Except.ok st2 =>
          dumpLoop db queries describer options fuel
            (calcFetchedCount st.fetchedIdsMap) st2
    else Except.ok st

/-- `dumpAsCSVData` up to (and including) the closure loop: seed, then loop
starting from `prevCount = 0` with the newly-fetched map aliased to the
fetched map, exactly as in the source.  (The CSV serialisation that follows
reads only the final state.) -/
def dumpClosure (db : TargetDB) (seedRecords : DumpQuery → List DumpRecord)
    (queries : List DumpQuery) (describer : Describer) (options : DumpOptions)
    (fuel : Nat) : Except String DumpState :=
  let st0 := queryPrimaryRecords seedRecords queries options
  dumpLoop db queries describer options fuel 0
    { st0 with newlyFetchedIdsMap := st0.fetchedIdsMap }

/-! ### Characterisation helpers used by the theorems -/

/-- The keys `getMapValue` tries for `k`, in order. -/
def triedKeys (k n : String) : List String :=
  [k, removeNamespace k n, addNamespace k n]

/-- Every key `getMapValue` can touch starting from `k`, its stripped or its
added variant. -/
def nsVariants (k n : String) : List String :=
  triedKeys k n ++ triedKeys (removeNamespace k n) n ++
    triedKeys (addNamespace k n) n

/-- The last reference column of `refFields` whose cell is non-empty and
missing from the id map, together with that cell. -/
def lastUnresolvedRef (refFields : List RefField) (row : List String)
    (idMap : List (String × String)) : Option (String × String) :=
  ((refFields.filter
      (fun rf => (row.getD rf.index "" != "") &&
        (List.lookup (row.getD rf.index "") idMap).isNone)).getLast?).map
    (fun rf => (rf.field, row.getD rf.index ""))

/-- Pair of blocker fields recorded for a waiting row. -/
def blockerOf : Option (String × String) → Option String × Option String
  | some (f, r) => (some f, some r)
  | none => (none, none)

/-- Indices of the headers that resolve to an `id`-typed field. -/
def idHeaderIdxs (object : String) (headers : List String) (d : Describer) :
    List Nat :=
  ((headers.enum).filter
      (fun iv =>
        match d.findFieldDescription object iv.2 with
        | some f => f.type == "id"
        | none => false)).map (fun iv => iv.1)

/-- The row's cells sitting under an `id`-typed header, in column order. -/
def idCells (ds : LoadDataset) (d : Describer) (row : List String) :
    List String :=
  ((row.enum).filter
      (fun iv =>
        match d.findFieldDescription ds.object (ds.headers.getD iv.1 "") with
        | some f => f.type == "id"
        | none => false)).map (fun iv => iv.2)

/-- The id cell `convertToRecordIdPair` retains: the last one in row order. -/
def lastIdCell (ds : LoadDataset) (d : Describer) (row : List String) :
    Option String :=
  (idCells ds d row).getLast?

/-- Every non-empty reference cell of the row resolves through the id map. -/
def refsResolved (refFields : List RefField)
    (idMap : List (String × String)) (row : List String) : Bool :=
  refFields.all
    (fun rf => (row.getD rf.index "" == "") ||
      (List.lookup (row.getD rf.index "") idMap).isSome)

/-- All origIds submitted across the batches of one pass. -/
def pairIds (uploadings : List (String × List RecordIdPair)) : List String :=
  uploadings.flatMap (fun e => e.2.map (fun p => p.id))

/-- Total number of records on the target side. -/
def totalDbCount (db : TargetDB) : Nat :=
  db.foldl (fun n e => n + e.2.length) 0

/-- The fetched (object, id) pairs, flattened. -/
def flatPairs (m : List (String × List String)) : List (String × String) :=
  m.flatMap (fun e => e.2.map (fun id => (e.1, id)))

/-- All (object, record id) pairs of the target side. -/
def dbPairs (db : TargetDB) : List (String × String) :=
  db.flatMap (fun e => e.2.map (fun r => (e.1, recId r)))

/-- The well-formedness the dump loop preserves: the fetched-ids map has
duplicate-free keys, duplicate-free id sets drawn from the target side, and
each object's fetched records are covered by its id set. -/
structure DumpInv (db : TargetDB) (st : DumpState) : Prop where
  keysNodup : (st.fetchedIdsMap.map Prod.fst).Nodup
  recsKeysNodup : (st.fetchedRecordsMap.map Prod.fst).Nodup
  idsNodup : ∀ e ∈ st.fetchedIdsMap, e.2.Nodup
  idsSub : ∀ e ∈ st.fetchedIdsMap, ∀ id ∈ e.2, id ∈ (dbGet db e.1).map recId
  recsNodup : ∀ e ∈ st.fetchedRecordsMap, (e.2.map recId).Nodup
  recsSub : ∀ e ∈ st.fetchedRecordsMap, ∀ id ∈ e.2.map recId,
    id ∈ (List.lookup e.1 st.fetchedIdsMap).getD []

/-! ### Concrete fixtures for the witnesses and counterexamples -/

def accountDescEx : DescribeSObjectResult :=
  ⟨"Account", [⟨"Id", "id", false, []⟩, ⟨"Name", "string", true, []⟩,
    ⟨"OwnerId", "reference", true, ["User"]⟩]⟩

def userDescEx : DescribeSObjectResult :=
  ⟨"User", [⟨"Id", "id", false, []⟩, ⟨"Name", "string", true, []⟩]⟩

def describerEx : Describer :=
  ⟨[("Account", accountDescEx), ("User", userDescEx)], ⟨none⟩⟩

def accountDataset : LoadDataset :=
  ⟨"Account", ["Id", "Name", "OwnerId"], [["A1", "Account 01", "U1"]]⟩

def userDataset : LoadDataset := ⟨"User", ["Id", "Name"], []⟩

/-- Two rows carrying the same source id. -/
def dupDataset : LoadDataset := ⟨"Account", ["Id", "Name"], [["a1", "x"], ["a1", "y"]]⟩

def dupDescriber : Describer :=
  ⟨[("Account", ⟨"Account", [⟨"Id", "id", false, []⟩, ⟨"Name", "string", true, []⟩]⟩)],
    ⟨none⟩⟩

/-- A data client whose nth created record gets id `n<i>`. -/
def numberedCreate : CreateFn :=
  fun _ recs => (List.range recs.length).map (fun i => ⟨true, "n" ++ toString i, []⟩)

/-- The run of `dupDataset` under `numberedCreate`, spelled out. -/
def dupResult : RunResult :=
  ⟨⟨2,
    [⟨"Account", "a1", "n0", [("Name", .vStr "x")]⟩,
     ⟨"Account", "a1", "n1", [("Name", .vStr "y")]⟩],
    [], []⟩,
   [("a1", "n1")], [], [⟨"Account", ["Id", "Name"], []⟩]⟩

def childDescEx : DescribeSObjectResult :=
  ⟨"Child", [⟨"Id", "id", false, []⟩, ⟨"RefA", "reference", true, ["P"]⟩,
    ⟨"RefB", "reference", true, ["P"]⟩]⟩

def childDescriber : Describer :=
  ⟨[("Child", childDescEx), ("P", ⟨"P", [⟨"Id", "id", false, []⟩]⟩)], ⟨none⟩⟩

def childDataset : LoadDataset :=
  ⟨"Child", ["Id", "RefA", "RefB"], [["c1", "A1", "B1"]]⟩

def c8Query : DumpQuery := ⟨"Account", "query", some (.list ["Name", "Foo"]), none⟩

/-- The C4 witness run, spelled out. -/
def c4Run : RunResult :=
  ⟨⟨1,
    [⟨"Account", "A1", "n0",
      [("Name", .vStr "Account 01"), ("OwnerId", .vRef (some "u-new"))]⟩],
    [], []⟩,
   [("U1", "u-new"), ("A1", "n0")], [],
   [⟨"Account", ["Id", "Name", "OwnerId"], []⟩, ⟨"User", ["Id", "Name"], []⟩]⟩

/-- The C7 witness database: an Account owned by a User. -/
def c7Db : TargetDB :=
  [("Account", [[("Id", "A1"), ("Name", "Acme"), ("OwnerId", "U1")]]),
   ("User", [[("Id", "U1"), ("Name", "Boss")]])]

def c7Queries : List DumpQuery :=
  [⟨"Account", "query", none, none⟩, ⟨"User", "related", none, none⟩]

def c7Seed : DumpQuery → List DumpRecord :=
  fun q => if q.object = "Account"
    then [[("Id", "A1"), ("Name", "Acme"), ("OwnerId", "U1")]] else []


/-! ## Lemmas about the collection embeddings -/

theorem lookup_cons_eqn (k k' : String) (v : α) (m : List (String × α)) :
    List.lookup k ((k', v) :: m) =
      if k = k' then some v else List.lookup k m := by
  by_cases h : k = k'
  · simp [List.lookup, h]
  · have hb : (k == k') = false := beq_false_of_ne h
    simp [List.lookup, hb, h]

theorem lookup_mem {m : List (String × α)} {k : String} {v : α}
    (h : List.lookup k m = some v) : (k, v) ∈ m := by
  induction m with
  | nil => simp at h
  | cons p rest ih =>
    obtain ⟨k', v'⟩ := p
    rw [lookup_cons_eqn] at h
    by_cases hk : k = k'
    · simp [hk] at h
      simp [hk, h]
    · simp [hk] at h
      exact List.mem_cons_of_mem _ (ih h)

theorem lookup_jsSet_self (m : List (String × α)) (k : String) (v : α) :
    List.lookup k (jsSet m k v) = some v := by
  induction m with
  | nil => simp [jsSet, lookup_cons_eqn]
  | cons p rest ih =>
    obtain ⟨k', v'⟩ := p
    by_cases h : k' = k
    · simp [jsSet, h, lookup_cons_eqn]
    · have h2 : k ≠ k' := fun he => h he.symm
      simp [jsSet, h, lookup_cons_eqn, h2, ih]

theorem lookup_jsSet_ne (m : List (String × α)) (k k' : String) (v : α)
    (h : k' ≠ k) : List.lookup k' (jsSet m k v) = List.lookup k' m := by
  induction m with
  | nil => simp [jsSet, lookup_cons_eqn, h]
  | cons p rest ih =>
    obtain ⟨k₀, v₀⟩ := p
    by_cases h0 : k₀ = k
    · subst h0
      simp [jsSet, lookup_cons_eqn, h]
    · simp [jsSet, h0, lookup_cons_eqn, ih]

theorem lookup_isSome_jsSet (m : List (String × α)) (k k' : String) (v : α)
    (h : (List.lookup k' m).isSome) :
    (List.lookup k' (jsSet m k v)).isSome := by
  by_cases hk : k' = k
  · subst hk
    simp [lookup_jsSet_self]
  · rw [lookup_jsSet_ne m k k' v hk]
    exact h

/-! ## C9: the namespace lookup law -/

/-- `getMapValue` only ever returns the value stored at one of the three keys
it tries. -/
theorem getMapValue_cases {m : List (String × α)} {k n : String} {v : α}
    (h : getMapValue m k (some n) = some v) :
    ∃ key ∈ triedKeys k n, List.lookup key m = some v := by
  unfold getMapValue at h
  cases h1 : List.lookup k m with
  | some w =>
    rw [h1] at h
    exact ⟨k, by simp [triedKeys], by simp [h1, ← h]⟩
  | none =>
    rw [h1] at h
    by_cases hn : n = ""
    · simp [hn] at h
    · simp only [hn, if_false] at h
      cases h2 : List.lookup (removeNamespace k n) m with
      | some w =>
        rw [h2] at h
        exact ⟨removeNamespace k n, by simp [triedKeys], by simp [h2, ← h]⟩
      | none =>
        rw [h2] at h
        exact ⟨addNamespace k n, by simp [triedKeys], h⟩

/-- The keys tried for any of `k`'s variants stay inside `nsVariants k n`. -/
theorem triedKeys_sub_nsVariants {x k n : String} (hx : x ∈ triedKeys k n) :
    ∀ key ∈ triedKeys x n, key ∈ nsVariants k n := by
  intro key hkey
  simp only [triedKeys, List.mem_cons, List.not_mem_nil, or_false] at hx
  rcases hx with rfl | rfl | rfl
  · exact List.mem_append_left _ (List.mem_append_left _ hkey)
  · exact List.mem_append_left _ (List.mem_append_right _ hkey)
  · exact List.mem_append_right _ hkey

/-- C9 (counterexample): the law
`lookup(m,k,N) = lookup(m, strip(k,N), N)` fails although the left side is
defined.  With `m = {ns__foo ↦ 1}` and `N = ns`, looking up `ns__foo`
succeeds directly, but looking up its stripped form `foo` finds nothing:
`foo` is not a key, stripping is idempotent, and `foo` carries no custom
suffix so `add` leaves it alone. -/
theorem C9_lookup_law_counterexample :
    removeNamespace "ns__foo" "ns" = "foo"
    ∧ getMapValue [("ns__foo", (1 : Nat))] "ns__foo" (some "ns") = some 1
    ∧ getMapValue [("ns__foo", (1 : Nat))] "foo" (some "ns") = none := by
  refine ⟨by decide, by decide, by decide⟩

/-- C9 (amended): the three lookups need not agree in general; they do agree
whenever both sides are defined and the map holds at most one key among the
namespace variants of `k` (which is the intended situation: a name stored
either with or without its namespace, not both). -/
theorem C9_lookup_guarded_amended (m : List (String × α)) (k n x y : String)
    (vx vy : α)
    (hx : x ∈ triedKeys k n) (hy : y ∈ triedKeys k n)
    (hguard : ∀ k₁ ∈ m.map Prod.fst, ∀ k₂ ∈ m.map Prod.fst,
      k₁ ∈ nsVariants k n → k₂ ∈ nsVariants k n → k₁ = k₂)
    (hvx : getMapValue m x (some n) = some vx)
    (hvy : getMapValue m y (some n) = some vy) : vx = vy := by
  obtain ⟨kx, hkx, hlx⟩ := getMapValue_cases hvx
  obtain ⟨ky, hky, hly⟩ := getMapValue_cases hvy
  have hmx : kx ∈ m.map Prod.fst := by
    have := lookup_mem hlx
    exact List.mem_map_of_mem Prod.fst this
  have hmy : ky ∈ m.map Prod.fst := by
    have := lookup_mem hly
    exact List.mem_map_of_mem Prod.fst this
  have hxe : kx = ky :=
    hguard kx hmx ky hmy (triedKeys_sub_nsVariants hx kx hkx)
      (triedKeys_sub_nsVariants hy ky hky)
  rw [hxe, hly] at hlx
  exact (Option.some.injEq _ _).mp hlx.symm

/-- Witness for the amended C9 at a concrete map and key. -/
theorem C9_lookup_guarded_amended_witness :
    getMapValue [("foo__c", (3 : Nat))] "foo__c" (some "ns") = some 3
    ∧ getMapValue [("foo__c", (3 : Nat))] (addNamespace "foo__c" "ns")
        (some "ns") = some 3
    ∧ (3 : Nat) = 3 :=
  ⟨by decide, by decide,
    C9_lookup_guarded_amended [("foo__c", 3)] "foo__c" "ns" "foo__c"
      (addNamespace "foo__c" "ns") 3 3 (by decide) (by decide) (by decide)
      (by decide) (by decide)⟩

/-! ## C5: describer name resolution -/

def c5Account : DescribeSObjectResult := ⟨"Account", []⟩

/-- C5 (counterexample): the describer built from `describeSObjects` keys its
map by the described name verbatim, and lookups are exact: `Account`
resolves while `account`, differing only in case, does not. -/
theorem C5_case_insensitive_counterexample :
    describeSObjects (fun o => if o = "Account" then some c5Account else none)
        ["Account"] ⟨none⟩ = Except.ok [("Account", c5Account)]
    ∧ findSObjectDescription "Account" [("Account", c5Account)] ⟨none⟩ =
        some c5Account
    ∧ findSObjectDescription "account" [("Account", c5Account)] ⟨none⟩ = none :=
  ⟨rfl, rfl, rfl⟩

/-- `getMapValue` without a namespace is the exact lookup. -/
theorem getMapValue_none (m : List (String × α)) (k : String) :
    getMapValue m k none = List.lookup k m := by
  unfold getMapValue
  cases List.lookup k m <;> rfl

/-- C5 (amended): resolution is case-sensitive exact matching with namespace
fallback, for object names and field names alike.  `describeSObjects` keys
its map by each described object's name verbatim; without a default
namespace `findSObjectDescription` is the exact lookup, and with one it is
the exact-then-stripped-then-added chain.  `findFieldDescription` keys the
resolved object's fields by `field.name` verbatim (no lowercasing anywhere)
and runs the same chain over that map. -/
theorem C5_lookup_exact_amended (describe : String → Option DescribeSObjectResult)
    (objects : List String) (options : DescribeOptions) (descs : Descriptions)
    (h : describeSObjects describe objects options = Except.ok descs) :
    descs.map Prod.fst = descs.map (fun p => p.2.name)
    ∧ (∀ name, findSObjectDescription name descs ⟨none⟩ = List.lookup name descs)
    ∧ (∀ name n, n ≠ "" →
        findSObjectDescription name descs ⟨some n⟩ =
          ((List.lookup name descs).orElse
            (fun _ => (List.lookup (removeNamespace name n) descs).orElse
              (fun _ => List.lookup (addNamespace name n) descs))))
    ∧ (∀ description : DescribeSObjectResult,
        (description.fields.map (fun f => (f.name, f))).map Prod.fst =
          description.fields.map (fun f => f.name))
    ∧ (∀ objectName fieldName (description : DescribeSObjectResult),
        findSObjectDescription objectName descs ⟨none⟩ = some description →
        findFieldDescription objectName fieldName descs ⟨none⟩ =
          List.lookup fieldName (description.fields.map (fun f => (f.name, f))))
    ∧ (∀ objectName fieldName (description : DescribeSObjectResult) n, n ≠ "" →
        findSObjectDescription objectName descs ⟨some n⟩ = some description →
        findFieldDescription objectName fieldName descs ⟨some n⟩ =
          ((List.lookup fieldName
              (description.fields.map (fun f => (f.name, f)))).orElse
            (fun _ => (List.lookup (removeNamespace fieldName n)
                (description.fields.map (fun f => (f.name, f)))).orElse
              (fun _ => List.lookup (addNamespace fieldName n)
                (description.fields.map (fun f => (f.name, f))))))) := by
  refine ⟨?_, ?_, ?_, ?_, ?_, ?_⟩
  · unfold describeSObjects at h
    cases hm : objects.mapM (describeOne describe options) with
    | error e => rw [hm] at h; cases h
    | ok ds =>
      rw [hm] at h
      have : descs = ds.map (fun d => (d.name, d)) := by
        cases h; rfl
      subst this
      simp
  · intro name
    unfold findSObjectDescription
    exact getMapValue_none descs name
  · intro name n hn
    unfold findSObjectDescription getMapValue
    cases List.lookup name descs with
    | some v => rfl
    | none =>
      simp only [hn, if_false, Option.orElse]
      cases List.lookup (removeNamespace name n) descs <;> rfl
  · intro description
    simp
  · intro objectName fieldName description hobj
    unfold findFieldDescription
    rw [hobj]
    exact getMapValue_none (description.fields.map (fun f => (f.name, f)))
      fieldName
  · intro objectName fieldName description n hn hobj
    unfold findFieldDescription
    rw [hobj]
    dsimp only
    unfold getMapValue
    cases List.lookup fieldName (description.fields.map (fun f => (f.name, f))) with
    | some v => rfl
    | none =>
      simp only [hn, if_false, Option.orElse]
      cases List.lookup (removeNamespace fieldName n)
          (description.fields.map (fun f => (f.name, f))) <;> rfl

/-- Witness for the amended C5 on concrete schemas: verbatim keys on the
object map plus an exact field-name lookup through `findFieldDescription`. -/
theorem C5_lookup_exact_amended_witness :
    describeSObjects (fun o => if o = "Account" then some c5Account else none)
        ["Account"] ⟨none⟩ = Except.ok [("Account", c5Account)]
    ∧ ([("Account", c5Account)].map Prod.fst =
        [("Account", c5Account)].map (fun p => p.2.name))
    ∧ describeSObjects (fun o => if o = "Account" then some accountDescEx else none)
        ["Account"] ⟨none⟩ = Except.ok [("Account", accountDescEx)]
    ∧ findSObjectDescription "Account" [("Account", accountDescEx)] ⟨none⟩ =
        some accountDescEx
    ∧ findFieldDescription "Account" "Name" [("Account", accountDescEx)] ⟨none⟩ =
        List.lookup "Name" (accountDescEx.fields.map (fun f => (f.name, f))) :=
  ⟨rfl,
    (C5_lookup_exact_amended
      (fun o => if o = "Account" then some c5Account else none)
      ["Account"] ⟨none⟩ [("Account", c5Account)] rfl).1,
    rfl, rfl,
    (C5_lookup_exact_amended
      (fun o => if o = "Account" then some accountDescEx else none)
      ["Account"] ⟨none⟩ [("Account", accountDescEx)] rfl).2.2.2.2.1
      "Account" "Name" accountDescEx rfl⟩

/-! ## C8: dump field selection -/

/-- C8 (counterexample): with `fields = ["Name", "Foo"]` on a schema that has
no `Foo`, the selected list is just `[Name]`—the schema-filtered
intersection—not "exactly the fields given in the query". -/
theorem C8_fields_exact_counterexample :
    getTargetFieldDefinitions c8Query describerEx =
      Except.ok [⟨"Name", "string", true, []⟩]
    ∧ toStringList (StrOrList.list ["Name", "Foo"]) = ["Name", "Foo"]
    ∧ ([(⟨"Name", "string", true, []⟩ : FieldDescription)].map
        (fun f => f.name)) ≠ ["Name", "Foo"] :=
  ⟨rfl, rfl, by decide⟩

/-- C8 (amended): the branch order is as claimed—`fields` wins, else
`ignoreFields` subtracts from the schema, else the whole schema—but a set
`fields` selects the schema fields whose names appear in it (in schema
order), not the query list itself. -/
theorem C8_field_selection_amended (query : DumpQuery) (describer : Describer)
    (description : DescribeSObjectResult)
    (h : describer.findSObjectDescription query.object = some description) :
    (∀ fl, query.fields = some fl →
      getTargetFieldDefinitions query describer =
        Except.ok (description.fields.filter
          (fun f => (toStringList fl).contains f.name))
      ∧ ∀ f, (f ∈ description.fields.filter
            (fun f => (toStringList fl).contains f.name)) ↔
          (f ∈ description.fields ∧ f.name ∈ toStringList fl))
    ∧ (query.fields = none → ∀ il, query.ignoreFields = some il →
        getTargetFieldDefinitions query describer =
          Except.ok (description.fields.filter
            (fun f => !(toStringList il).contains f.name)))
    ∧ (query.fields = none → query.ignoreFields = none →
        getTargetFieldDefinitions query describer = Except.ok description.fields) := by
  refine ⟨?_, ?_, ?_⟩
  · intro fl hfl
    constructor
    · simp [getTargetFieldDefinitions, h, hfl]
    · intro f
      simp [List.mem_filter]
  · intro h1 il h2
    simp [getTargetFieldDefinitions, h, h1, h2]
  · intro h1 h2
    simp [getTargetFieldDefinitions, h, h1, h2]

/-- Witness for the amended C8 on the two-field Account schema. -/
theorem C8_field_selection_amended_witness :
    describerEx.findSObjectDescription "Account" = some accountDescEx
    ∧ getTargetFieldDefinitions ⟨"Account", "query", some (.list ["Name"]), none⟩
        describerEx = Except.ok [⟨"Name", "string", true, []⟩] := by
  refine ⟨by decide, ?_⟩
  have h :=
    ((C8_field_selection_amended
        ⟨"Account", "query", some (.list ["Name"]), none⟩ describerEx
        accountDescEx (by decide)).1 (.list ["Name"]) rfl).1
  rw [h]
  rfl

/-! ## C1: the outcome partition at termination -/

/-- C1 (code bug): the dependency-blocked scenario of the repo's own test
suite (an Account row referencing a User absent from the input) runs to the
fixpoint with `successes = failures = blocked = []` although the single
input row was classified as waiting with blocker `(OwnerId, U1)`: the row
lands in no outcome group, because `uploadDatasets` returns the status
accumulated *before* the final pass and the final pass's `blocked` list is
discarded.  `test/index.test.ts` expects `blocked` to hold exactly this row. -/
theorem C1_partition_lost_row :
    filterUploadableRecords accountDataset [] [] describerEx =
      Except.ok ⟨[], [⟨["A1", "Account 01", "U1"], "A1", some "OwnerId", some "U1"⟩], [], []⟩
    ∧ uploadDatasets (fun _ _ => []) describerEx 2 [accountDataset, userDataset]
        [] [] ⟨1, [], [], []⟩ =
      Except.ok ⟨⟨1, [], [], []⟩, [], [],
        [⟨"Account", ["Id", "Name", "OwnerId"], [["A1", "Account 01", "U1"]]⟩,
         userDataset]⟩ :=
  ⟨rfl, rfl⟩

/-! ## C2: monotone id map -/

/-- C2 (counterexample): two rows sharing the source id `a1` are both
classified uploadable in the same pass; the first create result binds
`a1 ↦ n0` (as its success entry records), the second rebinds `a1 ↦ n1`.
The run's final map holds `n1`, so the binding made by the first success
did not persist—keys can be overwritten. -/
theorem C2_rebind_counterexample :
    uploadDatasets numberedCreate dupDescriber 3 [dupDataset] [] [] ⟨2, [], [], []⟩ =
      Except.ok dupResult
    ∧ dupResult.status.successes.map (fun s => (s.origId, s.newId)) =
        [("a1", "n0"), ("a1", "n1")]
    ∧ List.lookup "a1" dupResult.idMap = some "n1"
    ∧ ("n0" : String) ≠ "n1" :=
  ⟨rfl, by decide, by decide, by decide⟩

/-! ## C3: which unresolved reference is recorded -/

/-- C3 (counterexample): a row whose two reference columns `RefA` (first) and
`RefB` (second) are both unresolved is blocked with recorded blocker
`(RefB, B1)`—the *last* unresolved reference—while the claim requires the
first, `(RefA, A1)`. -/
theorem C3_first_blocker_counterexample :
    (scanColumns "Child" ["Id", "RefA", "RefB"] childDescriber).2 =
      [⟨"RefA", 1⟩, ⟨"RefB", 2⟩]
    ∧ List.lookup "A1" ([] : List (String × String)) = none
    ∧ filterUploadableRecords childDataset [] [] childDescriber =
        Except.ok ⟨[], [⟨["c1", "A1", "B1"], "c1", some "RefB", some "B1"⟩], [], []⟩
    ∧ ((some "RefB", some "B1") : Option String × Option String) ≠
        (some "RefA", some "A1") :=
  ⟨rfl, rfl, rfl, by decide⟩

/-! ## C6: when row conversion raises the missing-id error -/

/-- C6 (counterexample): the Account dataset does have an id column (header
index 0 resolves to the `id`-typed field), yet converting a row whose id
cell is empty raises the missing-id error, because the final check is the
JavaScript truthiness test `!id`, which an empty string fails. -/
theorem C6_empty_id_cell_counterexample :
    (scanColumns "Account" ["Id", "Name", "OwnerId"] describerEx).1 = some 0
    ∧ convertToRecordIdPair accountDataset ["", "x", ""] [] describerEx =
        Except.error "No id type field is found: Account" :=
  ⟨rfl, rfl⟩

/-! ## Classifier characterisation lemmas -/

theorem lastUnresolvedRef_nil (row : List String) (idMap : List (String × String)) :
    lastUnresolvedRef [] row idMap = none := rfl

theorem lastUnresolvedRef_cons (rf : RefField) (rest : List RefField)
    (row : List String) (idMap : List (String × String)) :
    lastUnresolvedRef (rf :: rest) row idMap =
      (if ((row.getD rf.index "" != "") &&
          (List.lookup (row.getD rf.index "") idMap).isNone) = true then
        (match lastUnresolvedRef rest row idMap with
          | some p => some p
          | none => some (rf.field, row.getD rf.index ""))
      else lastUnresolvedRef rest row idMap) := by
  unfold lastUnresolvedRef
  rw [List.filter_cons]
  by_cases hc : ((row.getD rf.index "" != "") &&
      (List.lookup (row.getD rf.index "") idMap).isNone) = true
  · rw [if_pos hc, if_pos hc]
    cases hfr : List.filter
        (fun rf => (row.getD rf.index "" != "") &&
          (List.lookup (row.getD rf.index "") idMap).isNone) rest with
    | nil => rfl
    | cons x xs =>
      rw [List.getLast?_cons_cons]
      cases hy : (x :: xs).getLast? with
      | none =>
        have hne : (x :: xs).getLast?.isSome = true :=
          List.getLast?_isSome.mpr (by simp)
        rw [hy] at hne
        exact Bool.noConfusion hne
      | some y => rfl
  · rw [if_neg hc, if_neg hc]

/-- The three shapes one step of the classifier's inner loop can take. -/
theorem classifyStep_shape (row : List String) (id : String)
    (idMap : List (String × String))
    (acc : Bool × Option String × Option String × List String) (rf : RefField) :
    (row.getD rf.index "" = "" ∧ classifyStep row id idMap acc rf = acc)
    ∨ (row.getD rf.index "" ≠ "" ∧
        (List.lookup (row.getD rf.index "") idMap).isNone = true ∧
        classifyStep row id idMap acc rf =
          (false, some rf.field, some (row.getD rf.index ""),
            if jsHas acc.2.2.2 (row.getD rf.index "") then jsAdd acc.2.2.2 id
            else if jsHas acc.2.2.2 id then jsAdd acc.2.2.2 (row.getD rf.index "")
            else acc.2.2.2))
    ∨ (row.getD rf.index "" ≠ "" ∧
        (List.lookup (row.getD rf.index "") idMap).isNone = false ∧
        classifyStep row id idMap acc rf =
          (acc.1, acc.2.1, acc.2.2.1,
            if jsHas acc.2.2.2 (row.getD rf.index "") then jsAdd acc.2.2.2 id
            else if jsHas acc.2.2.2 id then jsAdd acc.2.2.2 (row.getD rf.index "")
            else acc.2.2.2)) := by
  by_cases h1 : row.getD rf.index "" = ""
  · exact Or.inl ⟨h1, by unfold classifyStep; rw [if_neg (fun hcon => hcon h1)]⟩
  · by_cases h2 : (List.lookup (row.getD rf.index "") idMap).isNone = true
    · refine Or.inr (Or.inl ⟨h1, h2, ?_⟩)
      unfold classifyStep
      rw [if_pos h1, if_pos h2]
    · refine Or.inr (Or.inr ⟨h1, Bool.eq_false_iff.mpr h2, ?_⟩)
      unfold classifyStep
      rw [if_pos h1, if_neg h2]

/-- The unresolved-reference test of `lastUnresolvedRef` and `refsResolved`,
spelled for one column. -/
theorem refsResolved_cons (rf : RefField) (rest : List RefField)
    (idMap : List (String × String)) (row : List String) :
    refsResolved (rf :: rest) idMap row =
      (((row.getD rf.index "" == "") ||
        (List.lookup (row.getD rf.index "") idMap).isSome) &&
        refsResolved rest idMap row) := by
  unfold refsResolved
  rw [List.all_cons]

/-- The classifier's inner loop leaves the uploadable flag as the initial
flag conjoined with every non-empty reference cell resolving. -/
theorem classify_fold_uploadable (row : List String) (id : String)
    (idMap : List (String × String)) :
    ∀ (rfs : List RefField) (b0 : Bool) (bf0 bid0 : Option String)
      (tids : List String),
      (rfs.foldl (classifyStep row id idMap) (b0, bf0, bid0, tids)).1 =
        (b0 && refsResolved rfs idMap row) := by
  intro rfs
  induction rfs with
  | nil => intro b0 bf0 bid0 tids; simp [refsResolved]
  | cons rf rest ih =>
    intro b0 bf0 bid0 tids
    rw [List.foldl_cons, refsResolved_cons]
    rcases classifyStep_shape row id idMap (b0, bf0, bid0, tids) rf with
      ⟨h1, heq⟩ | ⟨h1, h2, heq⟩ | ⟨h1, h2, heq⟩
    · rw [heq, ih]
      have hb : ((row.getD rf.index "" == "") = true) := beq_iff_eq.mpr h1
      rw [hb, Bool.true_or, Bool.true_and]
    · rw [heq, ih]
      have hb : ((row.getD rf.index "" == "") = false) := beq_false_of_ne h1
      have hs : ((List.lookup (row.getD rf.index "") idMap).isSome = false) := by
        cases hl : List.lookup (row.getD rf.index "") idMap
        · rfl
        · rw [hl] at h2; cases h2
      rw [hb, hs]
      simp
    · rw [heq, ih]
      have hb : ((row.getD rf.index "" == "") = false) := beq_false_of_ne h1
      have hs : ((List.lookup (row.getD rf.index "") idMap).isSome = true) := by
        cases hl : List.lookup (row.getD rf.index "") idMap
        · rw [hl] at h2; cases h2
        · rfl
      rw [hb, hs, Bool.false_or, Bool.true_and]

/-- The classifier's inner loop never touches an empty target set. -/
theorem classify_fold_targets_empty (row : List String) (id : String)
    (idMap : List (String × String)) :
    ∀ (rfs : List RefField) (b0 : Bool) (bf0 bid0 : Option String),
      (rfs.foldl (classifyStep row id idMap) (b0, bf0, bid0, [])).2.2.2 = [] := by
  intro rfs
  induction rfs with
  | nil => intro b0 bf0 bid0; simp
  | cons rf rest ih =>
    intro b0 bf0 bid0
    rw [List.foldl_cons]
    rcases classifyStep_shape row id idMap (b0, bf0, bid0, []) rf with
      ⟨h1, heq⟩ | ⟨h1, h2, heq⟩ | ⟨h1, h2, heq⟩
    · rw [heq]; exact ih b0 bf0 bid0
    · rw [heq]
      exact ih false (some rf.field) (some (row.getD rf.index ""))
    · rw [heq]
      exact ih b0 bf0 bid0

/-- The classifier's inner loop records the last unresolved reference (or
keeps the incoming blocker when every reference resolves). -/
theorem classify_fold_blocker (row : List String) (id : String)
    (idMap : List (String × String)) :
    ∀ (rfs : List RefField) (b0 : Bool) (bf0 bid0 : Option String)
      (tids : List String),
      ((rfs.foldl (classifyStep row id idMap) (b0, bf0, bid0, tids)).2.1,
       (rfs.foldl (classifyStep row id idMap) (b0, bf0, bid0, tids)).2.2.1) =
        (match lastUnresolvedRef rfs row idMap with
          | some p => (some p.1, some p.2)
          | none => (bf0, bid0)) := by
  intro rfs
  induction rfs with
  | nil => intro b0 bf0 bid0 tids; rw [lastUnresolvedRef_nil]; rfl
  | cons rf rest ih =>
    intro b0 bf0 bid0 tids
    rw [List.foldl_cons, lastUnresolvedRef_cons]
    rcases classifyStep_shape row id idMap (b0, bf0, bid0, tids) rf with
      ⟨h1, heq⟩ | ⟨h1, h2, heq⟩ | ⟨h1, h2, heq⟩
    · have hb : ((row.getD rf.index "" != "") = false) := by
        simp only [h1]; rfl
      rw [heq, ih, hb, Bool.false_and,
        if_neg (fun hcon => Bool.noConfusion hcon)]
    · have hb : ((row.getD rf.index "" != "") = true) := by
        simp only [bne_iff_ne, ne_eq, h1, not_false_eq_true]
      rw [heq, ih, hb, Bool.true_and, if_pos h2]
      cases hlast : lastUnresolvedRef rest row idMap with
      | some p => rfl
      | none => rfl
    · have hb : ((row.getD rf.index "" != "") = true) := by
        simp only [bne_iff_ne, ne_eq, h1, not_false_eq_true]
      have h2n : ¬ ((List.lookup (row.getD rf.index "") idMap).isNone = true) := by
        rw [h2]; exact fun hcon => Bool.noConfusion hcon
      rw [heq, ih, hb, Bool.true_and, if_neg h2n]

/-! ## Classifier main-loop lemmas -/

/-- One row of the classifier with an empty target set: the target set stays
empty and the row goes to exactly one of the three groups, decided by the
id map and its reference cells alone. -/
theorem filterStep_empty_targets (idIndex : Nat) (rfs : List RefField)
    (idMap : List (String × String)) (u : List (List String))
    (w : List Waiting) (n : List (List String)) (row : List String) :
    filterStep idIndex rfs idMap ⟨u, w, n, []⟩ row =
      (if (List.lookup (row.getD idIndex "") idMap).isSome then
        ⟨u, w, n ++ [row], []⟩
      else if refsResolved rfs idMap row then ⟨u ++ [row], w, n, []⟩
      else
        ⟨u, w ++ [⟨row, row.getD idIndex "",
          (blockerOf (lastUnresolvedRef rfs row idMap)).1,
          (blockerOf (lastUnresolvedRef rfs row idMap)).2⟩], n, []⟩) := by
  have hcls1 : (classifyRow row (row.getD idIndex "") rfs
      (([] : List String).isEmpty || jsHas [] (row.getD idIndex ""))
      [] idMap).1 = refsResolved rfs idMap row := by
    unfold classifyRow
    rw [classify_fold_uploadable]
    rfl
  have hclsT : (classifyRow row (row.getD idIndex "") rfs
      (([] : List String).isEmpty || jsHas [] (row.getD idIndex ""))
      [] idMap).2.2.2 = [] := by
    unfold classifyRow
    exact classify_fold_targets_empty row (row.getD idIndex "") idMap rfs _ none none
  have hclsB : ((classifyRow row (row.getD idIndex "") rfs
      (([] : List String).isEmpty || jsHas [] (row.getD idIndex ""))
      [] idMap).2.1,
      (classifyRow row (row.getD idIndex "") rfs
      (([] : List String).isEmpty || jsHas [] (row.getD idIndex ""))
      [] idMap).2.2.1) = blockerOf (lastUnresolvedRef rfs row idMap) := by
    unfold classifyRow
    rw [classify_fold_blocker]
    cases lastUnresolvedRef rfs row idMap with
    | some p => rfl
    | none => rfl
  have hb1 := congrArg Prod.fst hclsB
  have hb2 := congrArg Prod.snd hclsB
  simp only at hb1 hb2
  unfold filterStep
  by_cases hm : (List.lookup (row.getD idIndex "") idMap).isSome = true
  · rw [if_pos hm, if_pos hm]
  · rw [if_neg hm, if_neg hm, hcls1]
    by_cases hr : refsResolved rfs idMap row = true
    · rw [if_pos hr, if_pos hr, hclsT]
    · rw [if_neg hr, if_neg hr, hclsT, hb1, hb2]

/-- With an empty target set, the classifier's main loop is the three-way
filter of the rows: not-loadables are the already-mapped rows, uploadables
the unmapped rows with all references resolved, waitings the rest, each
waiting carrying the last unresolved reference as blocker. -/
theorem filter_fold_empty_targets (idIndex : Nat) (rfs : List RefField)
    (idMap : List (String × String)) :
    ∀ (rows : List (List String)) (u : List (List String)) (w : List Waiting)
      (n : List (List String)),
      rows.foldl (filterStep idIndex rfs idMap) ⟨u, w, n, []⟩ =
        ⟨u ++ rows.filter
            (fun row => (List.lookup (row.getD idIndex "") idMap).isNone &&
              refsResolved rfs idMap row),
         w ++ (rows.filter
            (fun row => (List.lookup (row.getD idIndex "") idMap).isNone &&
              !(refsResolved rfs idMap row))).map
           (fun row => ⟨row, row.getD idIndex "",
             (blockerOf (lastUnresolvedRef rfs row idMap)).1,
             (blockerOf (lastUnresolvedRef rfs row idMap)).2⟩),
         n ++ rows.filter
            (fun row => (List.lookup (row.getD idIndex "") idMap).isSome),
         []⟩ := by
  intro rows
  induction rows with
  | nil => intro u w n; simp
  | cons row rest ih =>
    intro u w n
    rw [List.foldl_cons, filterStep_empty_targets]
    by_cases hm : (List.lookup (row.getD idIndex "") idMap).isSome = true
    · have hn : (List.lookup (row.getD idIndex "") idMap).isNone = false := by
        cases hl : List.lookup (row.getD idIndex "") idMap
        · rw [hl] at hm; cases hm
        · rfl
      rw [if_pos hm, ih]
      simp only [List.getD_eq_getElem?_getD] at hn hm
      simp [List.filter_cons, hn, hm]
    · have hmf : (List.lookup (row.getD idIndex "") idMap).isSome = false :=
        Bool.eq_false_iff.mpr hm
      have hn : (List.lookup (row.getD idIndex "") idMap).isNone = true := by
        cases hl : List.lookup (row.getD idIndex "") idMap
        · rfl
        · rw [hl] at hmf; cases hmf
      rw [if_neg hm]
      by_cases hr : refsResolved rfs idMap row = true
      · rw [if_pos hr, ih]
        simp only [List.getD_eq_getElem?_getD] at hn hmf
        simp [List.filter_cons, hn, hmf, hr]
      · have hrf : refsResolved rfs idMap row = false := Bool.eq_false_iff.mpr hr
        rw [if_neg hr, ih]
        simp only [List.getD_eq_getElem?_getD] at hn hmf
        simp [List.filter_cons, hn, hmf, hrf]

/-- One classifier row either leaves `waitings` alone or appends one entry
whose id is the row's id cell, unmapped, and whose blocker is the last
unresolved reference. -/
theorem filterStep_waitings (idIndex : Nat) (rfs : List RefField)
    (idMap : List (String × String)) (st : FilterResult) (row : List String) :
    (filterStep idIndex rfs idMap st row).waitings = st.waitings
    ∨ ((List.lookup (row.getD idIndex "") idMap).isNone = true ∧
        (filterStep idIndex rfs idMap st row).waitings =
          st.waitings ++ [⟨row, row.getD idIndex "",
            (blockerOf (lastUnresolvedRef rfs row idMap)).1,
            (blockerOf (lastUnresolvedRef rfs row idMap)).2⟩]) := by
  unfold filterStep
  by_cases hm : (List.lookup (row.getD idIndex "") idMap).isSome = true
  · rw [if_pos hm]
    exact Or.inl rfl
  · rw [if_neg hm]
    have hn : (List.lookup (row.getD idIndex "") idMap).isNone = true := by
      cases hl : List.lookup (row.getD idIndex "") idMap
      · rfl
      · rw [hl] at hm; exact absurd rfl hm
    by_cases hc : (classifyRow row (row.getD idIndex "") rfs
        (st.targetIds.isEmpty || jsHas st.targetIds (row.getD idIndex ""))
        st.targetIds idMap).1 = true
    · rw [if_pos hc]
      exact Or.inl rfl
    · rw [if_neg hc]
      refine Or.inr ⟨hn, ?_⟩
      have hclsB : ((classifyRow row (row.getD idIndex "") rfs
          (st.targetIds.isEmpty || jsHas st.targetIds (row.getD idIndex ""))
          st.targetIds idMap).2.1,
          (classifyRow row (row.getD idIndex "") rfs
          (st.targetIds.isEmpty || jsHas st.targetIds (row.getD idIndex ""))
          st.targetIds idMap).2.2.1) =
          blockerOf (lastUnresolvedRef rfs row idMap) := by
        unfold classifyRow
        rw [classify_fold_blocker]
        cases lastUnresolvedRef rfs row idMap with
        | some p => rfl
        | none => rfl
      have hb1 := congrArg Prod.fst hclsB
      have hb2 := congrArg Prod.snd hclsB
      simp only at hb1 hb2
      rw [hb1, hb2]

/-- Invariant transport: every waiting the classifier's main loop emits
carries the last unresolved reference of its row as blocker, the row's id
cell as id, and an id absent from the map. -/
theorem filter_fold_waiting_inv (idIndex : Nat) (rfs : List RefField)
    (idMap : List (String × String)) :
    ∀ (rows : List (List String)) (st : FilterResult),
      (∀ w ∈ st.waitings,
        (w.blockingField, w.blockingId) =
          blockerOf (lastUnresolvedRef rfs w.row idMap)
        ∧ w.id = w.row.getD idIndex ""
        ∧ (List.lookup w.id idMap).isNone = true) →
      ∀ w ∈ (rows.foldl (filterStep idIndex rfs idMap) st).waitings,
        (w.blockingField, w.blockingId) =
          blockerOf (lastUnresolvedRef rfs w.row idMap)
        ∧ w.id = w.row.getD idIndex ""
        ∧ (List.lookup w.id idMap).isNone = true := by
  intro rows
  induction rows with
  | nil => intro st h; exact h
  | cons row rest ih =>
    intro st h
    rw [List.foldl_cons]
    refine ih _ ?_
    rcases filterStep_waitings idIndex rfs idMap st row with heq | ⟨hn, heq⟩
    · rw [heq]; exact h
    · rw [heq]
      intro w hw
      rcases List.mem_append.mp hw with hw | hw
      · exact h w hw
      · rcases List.mem_singleton.mp hw with rfl
        exact ⟨rfl, rfl, hn⟩

/-- C3 (amended): for every waiting row the recorded
`(blockingField, blockingId)` is the *last* reference column of the row
(in the classifier's column order) whose non-empty value is missing from
the id map—`none` when the row waits only for target-set reasons. -/
theorem C3_blocker_is_last_amended (ds : LoadDataset) (targetIds : List String)
    (idMap : List (String × String)) (d : Describer) (res : FilterResult)
    (h : filterUploadableRecords ds targetIds idMap d = Except.ok res) :
    ∀ w ∈ res.waitings,
      (w.blockingField, w.blockingId) =
        blockerOf (lastUnresolvedRef (scanColumns ds.object ds.headers d).2
          w.row idMap) := by
  unfold filterUploadableRecords at h
  cases hscan : (scanColumns ds.object ds.headers d).1 with
  | none => rw [hscan] at h; cases h
  | some idIndex =>
    rw [hscan] at h
    have hres : res = ds.rows.foldl
        (filterStep idIndex (scanColumns ds.object ds.headers d).2 idMap)
        ⟨[], [], [], targetIds⟩ := by
      cases h; rfl
    intro w hw
    rw [hres] at hw
    exact (filter_fold_waiting_inv idIndex
      (scanColumns ds.object ds.headers d).2 idMap ds.rows
      ⟨[], [], [], targetIds⟩ (by intro w hw; cases hw) w hw).1

/-- Witness for the amended C3 on the doubly-unresolved row: the recorded
blocker `(RefB, B1)` is the last unresolved reference. -/
theorem C3_blocker_is_last_amended_witness :
    ((some "RefB" : Option String), (some "B1" : Option String)) =
      blockerOf (lastUnresolvedRef
        (scanColumns childDataset.object childDataset.headers childDescriber).2
        ["c1", "A1", "B1"] []) :=
  C3_blocker_is_last_amended childDataset [] [] childDescriber
    ⟨[], [⟨["c1", "A1", "B1"], "c1", some "RefB", some "B1"⟩], [], []⟩ rfl
    ⟨["c1", "A1", "B1"], "c1", some "RefB", some "B1"⟩ (by decide)

/-! ## C10: the target-id set of a `loadCSVData` run -/

theorem filterUploadableRecords_empty_targetIds (ds : LoadDataset)
    (idMap : List (String × String)) (d : Describer) (res : FilterResult)
    (h : filterUploadableRecords ds [] idMap d = Except.ok res) :
    res.targetIds = [] := by
  unfold filterUploadableRecords at h
  cases hscan : (scanColumns ds.object ds.headers d).1 with
  | none => rw [hscan] at h; cases h
  | some idIndex =>
    rw [hscan] at h
    cases h
    rw [filter_fold_empty_targets]

theorem uploadPassStep_targetIds (idMap : List (String × String))
    (describer : Describer) (st : PassResult) (dataset : LoadDataset)
    (st' : PassResult) (h0 : st.targetIds = [])
    (h : uploadPassStep idMap describer st dataset = Except.ok st') :
    st'.targetIds = [] := by
  unfold uploadPassStep at h
  split at h
  · cases h
  · rename_i res heq
    split at h
    · cases h
    · cases h
      rw [h0] at heq
      exact filterUploadableRecords_empty_targetIds dataset idMap describer res heq

theorem uploadPassGo_targetIds (idMap : List (String × String))
    (describer : Describer) :
    ∀ (datasets : List LoadDataset) (st p : PassResult), st.targetIds = [] →
      uploadPassGo idMap describer datasets st = Except.ok p →
      p.targetIds = [] := by
  intro datasets
  induction datasets with
  | nil =>
    intro st p h0 h
    cases h
    exact h0
  | cons dataset rest ih =>
    intro st p h0 h
    unfold uploadPassGo at h
    cases hs : uploadPassStep idMap describer st dataset with
    | error e => rw [hs] at h; cases h
    | ok st' =>
      rw [hs] at h
      exact ih st' p (uploadPassStep_targetIds idMap describer st dataset st' h0 hs) h

/-- C10: a run started through `loadCSVData` never populates the target-id
set.  `upload` creates it empty; with an empty set the classifier's
propagation guards are both false, so each pass returns it empty and
uploadability degenerates to "already mapped / all references resolved /
some reference unresolved", decided by the id map and the row's reference
cells alone. -/
theorem C10_target_set_stays_empty (describer : Describer) :
    (∀ (ds : LoadDataset) (idMap : List (String × String)) (res : FilterResult)
       (idIndex : Nat),
       (scanColumns ds.object ds.headers describer).1 = some idIndex →
       filterUploadableRecords ds [] idMap describer = Except.ok res →
         res.targetIds = []
         ∧ res.uploadables = ds.rows.filter (fun row =>
             (List.lookup (row.getD idIndex "") idMap).isNone &&
               refsResolved (scanColumns ds.object ds.headers describer).2
                 idMap row)
         ∧ res.notloadables = ds.rows.filter (fun row =>
             (List.lookup (row.getD idIndex "") idMap).isSome))
    ∧ (∀ (create : CreateFn) (fuel : Nat) (datasets : List LoadDataset)
         (idMap : List (String × String)) (st : UploadStatus) (r : RunResult),
        uploadDatasets create describer fuel datasets [] idMap st = Except.ok r →
          r.targetIds = []) := by
  constructor
  · intro ds idMap res idIndex hscan h
    unfold filterUploadableRecords at h
    rw [hscan] at h
    cases h
    rw [filter_fold_empty_targets]
    exact ⟨rfl, rfl, rfl⟩
  · intro create fuel
    induction fuel with
    | zero => intro datasets idMap st r h; cases h
    | succ fuel ih =>
      intro datasets idMap st r h
      unfold uploadDatasets at h
      split at h
      · cases h
      · rename_i pass heq
        have hpt : pass.targetIds = [] :=
          uploadPassGo_targetIds idMap describer datasets ⟨[], [], [], []⟩ pass
            rfl heq
        split at h
        · split at h
          · cases h
          · rw [hpt] at h
            exact ih pass.datasets _ _ r h
        · cases h
          exact hpt

/-- Witness for C10 on the blocked-Account run. -/
theorem C10_target_set_stays_empty_witness :
    uploadDatasets (fun _ _ => []) describerEx 2 [accountDataset, userDataset]
      [] [] ⟨1, [], [], []⟩ =
      Except.ok ⟨⟨1, [], [], []⟩, [], [],
        [⟨"Account", ["Id", "Name", "OwnerId"], [["A1", "Account 01", "U1"]]⟩,
         userDataset]⟩
    ∧ (⟨⟨1, [], [], []⟩, [], [],
        [⟨"Account", ["Id", "Name", "OwnerId"], [["A1", "Account 01", "U1"]]⟩,
         userDataset]⟩ : RunResult).targetIds = [] :=
  ⟨rfl,
    (C10_target_set_stays_empty describerEx).2 (fun _ _ => []) 2
      [accountDataset, userDataset] [] ⟨1, [], [], []⟩ _ rfl⟩

/-! ## C2: lemmas on the result-zipping and the id map growth -/

theorem pairIds_cons (e : String × List RecordIdPair)
    (rest : List (String × List RecordIdPair)) :
    pairIds (e :: rest) = e.2.map (fun p => p.id) ++ pairIds rest := by
  simp [pairIds]

theorem zipCreateResults_keys (object : String) :
    ∀ (rets : List CreateResult) (pairs : List RecordIdPair)
      (idMap : List (String × String)) s f m,
      zipCreateResults object rets pairs idMap = Except.ok (s, f, m) →
      ∀ k, (List.lookup k idMap).isSome = true →
        (List.lookup k m).isSome = true := by
  intro rets
  induction rets with
  | nil =>
    intro pairs idMap s f m h k hk
    unfold zipCreateResults at h
    cases h
    exact hk
  | cons ret rets' ih =>
    intro pairs idMap s f m h k hk
    cases pairs with
    | nil => unfold zipCreateResults at h; cases h
    | cons p pairs' =>
      unfold zipCreateResults at h
      by_cases hs : ret.success = true
      · rw [if_pos hs] at h
        cases hz : zipCreateResults object rets' pairs' (jsSet idMap p.id ret.id) with
        | error e => rw [hz] at h; cases h
        | ok trip =>
          obtain ⟨s', f', m'⟩ := trip
          rw [hz] at h
          cases h
          exact ih pairs' _ _ _ _ hz k
            (lookup_isSome_jsSet idMap p.id k ret.id hk)
      · rw [if_neg hs] at h
        cases hz : zipCreateResults object rets' pairs' idMap with
        | error e => rw [hz] at h; cases h
        | ok trip =>
          obtain ⟨s', f', m'⟩ := trip
          rw [hz] at h
          cases h
          exact ih pairs' _ _ _ _ hz k hk

theorem zipCreateResults_untouched (object : String) :
    ∀ (rets : List CreateResult) (pairs : List RecordIdPair)
      (idMap : List (String × String)) s f m,
      zipCreateResults object rets pairs idMap = Except.ok (s, f, m) →
      ∀ k, k ∉ pairs.map (fun p => p.id) →
        List.lookup k m = List.lookup k idMap := by
  intro rets
  induction rets with
  | nil =>
    intro pairs idMap s f m h k hk
    unfold zipCreateResults at h
    cases h
    rfl
  | cons ret rets' ih =>
    intro pairs idMap s f m h k hk
    cases pairs with
    | nil => unfold zipCreateResults at h; cases h
    | cons p pairs' =>
      rw [List.map_cons, List.mem_cons] at hk
      push_neg at hk
      unfold zipCreateResults at h
      by_cases hs : ret.success = true
      · rw [if_pos hs] at h
        cases hz : zipCreateResults object rets' pairs' (jsSet idMap p.id ret.id) with
        | error e => rw [hz] at h; cases h
        | ok trip =>
          obtain ⟨s', f', m'⟩ := trip
          rw [hz] at h
          cases h
          rw [ih pairs' _ _ _ _ hz k hk.2,
            lookup_jsSet_ne idMap p.id k ret.id hk.1]
      · rw [if_neg hs] at h
        cases hz : zipCreateResults object rets' pairs' idMap with
        | error e => rw [hz] at h; cases h
        | ok trip =>
          obtain ⟨s', f', m'⟩ := trip
          rw [hz] at h
          cases h
          exact ih pairs' _ _ _ _ hz k hk.2

theorem zipCreateResults_success_bound (object : String) :
    ∀ (rets : List CreateResult) (pairs : List RecordIdPair)
      (idMap : List (String × String)) s f m,
      zipCreateResults object rets pairs idMap = Except.ok (s, f, m) →
      (pairs.map (fun p => p.id)).Nodup →
      ∀ e ∈ s, List.lookup e.origId m = some e.newId := by
  intro rets
  induction rets with
  | nil =>
    intro pairs idMap s f m h hnd e he
    unfold zipCreateResults at h
    cases h
    cases he
  | cons ret rets' ih =>
    intro pairs idMap s f m h hnd e he
    cases pairs with
    | nil => unfold zipCreateResults at h; cases h
    | cons p pairs' =>
      rw [List.map_cons, List.nodup_cons] at hnd
      unfold zipCreateResults at h
      by_cases hs : ret.success = true
      · rw [if_pos hs] at h
        cases hz : zipCreateResults object rets' pairs' (jsSet idMap p.id ret.id) with
        | error e2 => rw [hz] at h; cases h
        | ok trip =>
          obtain ⟨s', f', m'⟩ := trip
          rw [hz] at h
          cases h
          rcases List.mem_cons.mp he with rfl | he'
          · rw [zipCreateResults_untouched object rets' pairs' _ _ _ _ hz p.id hnd.1,
              lookup_jsSet_self]
          · exact ih pairs' _ _ _ _ hz hnd.2 e he'
      · rw [if_neg hs] at h
        cases hz : zipCreateResults object rets' pairs' idMap with
        | error e2 => rw [hz] at h; cases h
        | ok trip =>
          obtain ⟨s', f', m'⟩ := trip
          rw [hz] at h
          cases h
          exact ih pairs' _ _ _ _ hz hnd.2 e he

theorem zipCreateResults_origIds (object : String) :
    ∀ (rets : List CreateResult) (pairs : List RecordIdPair)
      (idMap : List (String × String)) s f m,
      zipCreateResults object rets pairs idMap = Except.ok (s, f, m) →
      ∀ e ∈ s, e.origId ∈ pairs.map (fun p => p.id) := by
  intro rets
  induction rets with
  | nil =>
    intro pairs idMap s f m h e he
    unfold zipCreateResults at h
    cases h
    cases he
  | cons ret rets' ih =>
    intro pairs idMap s f m h e he
    cases pairs with
    | nil => unfold zipCreateResults at h; cases h
    | cons p pairs' =>
      unfold zipCreateResults at h
      rw [List.map_cons]
      by_cases hs : ret.success = true
      · rw [if_pos hs] at h
        cases hz : zipCreateResults object rets' pairs' (jsSet idMap p.id ret.id) with
        | error e2 => rw [hz] at h; cases h
        | ok trip =>
          obtain ⟨s', f', m'⟩ := trip
          rw [hz] at h
          cases h
          rcases List.mem_cons.mp he with rfl | he'
          · exact List.mem_cons_self _ _
          · exact List.mem_cons_of_mem _
              (ih pairs' _ _ _ _ hz e he')
      · rw [if_neg hs] at h
        cases hz : zipCreateResults object rets' pairs' idMap with
        | error e2 => rw [hz] at h; cases h
        | ok trip =>
          obtain ⟨s', f', m'⟩ := trip
          rw [hz] at h
          cases h
          exact List.mem_cons_of_mem _
            (ih pairs' _ _ _ _ hz e he)

theorem uploadRecords_keys (create : CreateFn) (describer : Describer) :
    ∀ (uploadings : List (String × List RecordIdPair))
      (idMap : List (String × String)) s f m,
      uploadRecords create uploadings idMap describer = Except.ok (s, f, m) →
      ∀ k, (List.lookup k idMap).isSome = true →
        (List.lookup k m).isSome = true := by
  intro uploadings
  induction uploadings with
  | nil =>
    intro idMap s f m h k hk
    unfold uploadRecords at h
    cases h
    exact hk
  | cons entry rest ih =>
    intro idMap s f m h k hk
    obtain ⟨object, recordIdPairs⟩ := entry
    unfold uploadRecords at h
    split at h
    · cases h
    · rename_i description hdesc
      split at h
      · cases h
      · rename_i s1 f1 m1 heq1
        split at h
        · cases h
        · rename_i s2 f2 m2 heq2
          cases h
          exact ih _ _ _ _ heq2 k
            (zipCreateResults_keys object _ recordIdPairs idMap _ _ _ heq1 k hk)

theorem uploadRecords_untouched (create : CreateFn) (describer : Describer) :
    ∀ (uploadings : List (String × List RecordIdPair))
      (idMap : List (String × String)) s f m,
      uploadRecords create uploadings idMap describer = Except.ok (s, f, m) →
      ∀ k, k ∉ pairIds uploadings →
        List.lookup k m = List.lookup k idMap := by
  intro uploadings
  induction uploadings with
  | nil =>
    intro idMap s f m h k hk
    unfold uploadRecords at h
    cases h
    rfl
  | cons entry rest ih =>
    intro idMap s f m h k hk
    obtain ⟨object, recordIdPairs⟩ := entry
    rw [pairIds_cons, List.mem_append] at hk
    push_neg at hk
    unfold uploadRecords at h
    split at h
    · cases h
    · rename_i description hdesc
      split at h
      · cases h
      · rename_i s1 f1 m1 heq1
        split at h
        · cases h
        · rename_i s2 f2 m2 heq2
          cases h
          rw [ih _ _ _ _ heq2 k hk.2,
            zipCreateResults_untouched object _ recordIdPairs idMap _ _ _
              heq1 k hk.1]

theorem uploadRecords_success_bound (create : CreateFn) (describer : Describer) :
    ∀ (uploadings : List (String × List RecordIdPair))
      (idMap : List (String × String)) s f m,
      uploadRecords create uploadings idMap describer = Except.ok (s, f, m) →
      (pairIds uploadings).Nodup →
      ∀ e ∈ s, List.lookup e.origId m = some e.newId := by
  intro uploadings
  induction uploadings with
  | nil =>
    intro idMap s f m h hnd e he
    unfold uploadRecords at h
    cases h
    cases he
  | cons entry rest ih =>
    intro idMap s f m h hnd e he
    obtain ⟨object, recordIdPairs⟩ := entry
    rw [pairIds_cons] at hnd
    have hnd1 : (recordIdPairs.map (fun p => p.id)).Nodup :=
      hnd.of_append_left
    have hnd2 : (pairIds rest).Nodup := hnd.of_append_right
    have hdisj : ∀ a ∈ recordIdPairs.map (fun p => p.id), a ∉ pairIds rest :=
      fun a ha => List.disjoint_of_nodup_append hnd ha
    unfold uploadRecords at h
    split at h
    · cases h
    · rename_i description hdesc
      split at h
      · cases h
      · rename_i s1 f1 m1 heq1
        split at h
        · cases h
        · rename_i s2 f2 m2 heq2
          cases h
          rcases List.mem_append.mp he with he1 | he2
          · have hb := zipCreateResults_success_bound object _ recordIdPairs
              idMap _ _ _ heq1 hnd1 e he1
            have horig : e.origId ∈ recordIdPairs.map (fun p => p.id) :=
              zipCreateResults_origIds object _ recordIdPairs idMap _ _ _
                heq1 e he1
            rw [uploadRecords_untouched create describer rest _ _ _ _ heq2
              e.origId (hdisj e.origId horig)]
            exact hb
          · exact ih _ _ _ _ heq2 hnd2 e he2

theorem uploadDatasets_keys (create : CreateFn) (describer : Describer) :
    ∀ (fuel : Nat) (datasets : List LoadDataset) (targetIds : List String)
      (idMap : List (String × String)) (st : UploadStatus) (r : RunResult),
      uploadDatasets create describer fuel datasets targetIds idMap st =
        Except.ok r →
      ∀ k, (List.lookup k idMap).isSome = true →
        (List.lookup k r.idMap).isSome = true := by
  intro fuel
  induction fuel with
  | zero => intro datasets targetIds idMap st r h; cases h
  | succ fuel ih =>
    intro datasets targetIds idMap st r h k hk
    unfold uploadDatasets at h
    split at h
    · cases h
    · rename_i pass heq
      split at h
      · split at h
        · cases h
        · rename_i s1 f1 m1 heq1
          exact ih pass.datasets pass.targetIds m1 _ r h k
            (uploadRecords_keys create describer pass.uploadings idMap s1 f1 m1
              heq1 k hk)
      · cases h
        exact hk

/-- C2 (amended): the id map only grows.  Unconditionally, its key set grows
through `uploadRecords` (the only writer) and through any number of driver
passes.  Provided the records submitted carry pairwise-distinct origIds not
already bound—true of real runs with distinct source ids, since the
classifier withholds already-bound ids—every existing binding persists
unchanged and every success's recorded binding survives the pass.  The
counterexample shows the distinctness proviso is necessary: two rows sharing
a source id make the second create result overwrite the first binding. -/
theorem C2_idmap_monotone_amended (create : CreateFn) (describer : Describer)
    (uploadings : List (String × List RecordIdPair))
    (idMap : List (String × String)) (s : List SuccessEntry)
    (f : List FailureEntry) (m : List (String × String))
    (h : uploadRecords create uploadings idMap describer = Except.ok (s, f, m)) :
    (∀ k, (List.lookup k idMap).isSome = true → (List.lookup k m).isSome = true)
    ∧ ((pairIds uploadings).Nodup →
        (∀ id ∈ pairIds uploadings, (List.lookup id idMap).isNone = true) →
        (∀ k v, List.lookup k idMap = some v → List.lookup k m = some v)
        ∧ (∀ e ∈ s, List.lookup e.origId m = some e.newId))
    ∧ (∀ (fuel : Nat) (datasets : List LoadDataset) (targetIds : List String)
         (idMap0 : List (String × String)) (st : UploadStatus) (r : RunResult),
        uploadDatasets create describer fuel datasets targetIds idMap0 st =
          Except.ok r →
        ∀ k, (List.lookup k idMap0).isSome = true →
          (List.lookup k r.idMap).isSome = true) := by
  refine ⟨fun k hk =>
      uploadRecords_keys create describer uploadings idMap s f m h k hk,
    fun hnd hfresh => ⟨?_, ?_⟩,
    uploadDatasets_keys create describer⟩
  · intro k v hkv
    have hk : k ∉ pairIds uploadings := by
      intro hmem
      have hn := hfresh k hmem
      rw [hkv] at hn
      cases hn
    rw [uploadRecords_untouched create describer uploadings idMap s f m h k hk]
    exact hkv
  · exact uploadRecords_success_bound create describer uploadings idMap s f m
      h hnd

/-! ## C6: lemmas on the row-to-record conversion -/

theorem mem_jsSet {m : List (String × α)} {k key : String} {v val : α}
    (h : (k, v) ∈ jsSet m key val) : (k, v) ∈ m ∨ k = key := by
  induction m with
  | nil =>
    unfold jsSet at h
    rcases List.mem_singleton.mp h with heq
    exact Or.inr (congrArg Prod.fst heq)
  | cons p rest ih =>
    obtain ⟨k0, v0⟩ := p
    unfold jsSet at h
    by_cases h0 : k0 = key
    · rw [if_pos h0] at h
      rcases List.mem_cons.mp h with heq | hmem
      · exact Or.inr (congrArg Prod.fst heq)
      · exact Or.inl (List.mem_cons_of_mem _ hmem)
    · rw [if_neg h0] at h
      rcases List.mem_cons.mp h with heq | hmem
      · exact Or.inl (List.mem_cons.mpr (Or.inl heq))
      · rcases ih hmem with hmem' | hk
        · exact Or.inl (List.mem_cons_of_mem _ hmem')
        · exact Or.inr hk

/-- The id accumulator of one conversion step: replaced by the cell under an
`id`-typed header, untouched otherwise. -/
theorem convertStep_fst (ds : LoadDataset) (idMap : List (String × String))
    (d : Describer) (acc : Option String × SFRecord) (iv : Nat × String) :
    (convertStep ds idMap d acc iv).1 =
      (if (match d.findFieldDescription ds.object (ds.headers.getD iv.1 "") with
          | some f => f.type == "id"
          | none => false) = true then some iv.2 else acc.1) := by
  unfold convertStep
  cases hf : d.findFieldDescription ds.object (ds.headers.getD iv.1 "") with
  | none => simp
  | some field =>
    dsimp only
    by_cases h1 : field.type = "id"
    · have hbt : (field.type == "id") = true := beq_iff_eq.mpr h1
      rw [if_pos h1, if_pos hbt]
    · have hbf : ¬((field.type == "id") = true) := fun hh => h1 (beq_iff_eq.mp hh)
      rw [if_neg h1, if_neg hbf]
      by_cases h2 : field.type = "int"
      · rw [if_pos h2]
        cases jsParseInt iv.2 with
        | none => rfl
        | some num =>
          dsimp only
          by_cases hc : field.createable = true
          · rw [if_pos hc]
          · rw [if_neg hc]
      · rw [if_neg h2]
        by_cases h3 : field.type = "double" ∨ field.type = "currency" ∨
            field.type = "percent"
        · rw [if_pos h3]
          cases jsParseFloat iv.2 with
          | none => rfl
          | some fnum =>
            dsimp only
            by_cases hc : field.createable = true
            · rw [if_pos hc]
            · rw [if_neg hc]
        · rw [if_neg h3]
          by_cases h4 : field.type = "date" ∨ field.type = "datetime"
          · rw [if_pos h4]
            by_cases hc : iv.2 ≠ "" ∧ field.createable = true
            · rw [if_pos hc]
            · rw [if_neg hc]
          · rw [if_neg h4]
            by_cases h5 : field.type = "boolean"
            · rw [if_pos h5]
              by_cases hc : field.createable = true
              · rw [if_pos hc]
              · rw [if_neg hc]
            · rw [if_neg h5]
              by_cases h6 : field.type = "reference"
              · rw [if_pos h6]
                by_cases hc : field.createable = true
                · rw [if_pos hc]
                · rw [if_neg hc]
              · rw [if_neg h6]
                by_cases hc : field.createable = true
                · rw [if_pos hc]
                · rw [if_neg hc]

/-- The record accumulator of one conversion step: untouched, or extended at
the name of a createable non-`id` field resolved from the header. -/
theorem convertStep_snd (ds : LoadDataset) (idMap : List (String × String))
    (d : Describer) (acc : Option String × SFRecord) (iv : Nat × String) :
    (convertStep ds idMap d acc iv).2 = acc.2
    ∨ ∃ f val,
        d.findFieldDescription ds.object (ds.headers.getD iv.1 "") = some f
        ∧ f.type ≠ "id" ∧ f.createable = true
        ∧ (convertStep ds idMap d acc iv).2 = jsSet acc.2 f.name val := by
  unfold convertStep
  cases hf : d.findFieldDescription ds.object (ds.headers.getD iv.1 "") with
  | none => exact Or.inl rfl
  | some field =>
    dsimp only
    by_cases h1 : field.type = "id"
    · rw [if_pos h1]; exact Or.inl rfl
    · rw [if_neg h1]
      by_cases h2 : field.type = "int"
      · rw [if_pos h2]
        cases jsParseInt iv.2 with
        | none => exact Or.inl rfl
        | some num =>
          dsimp only
          by_cases hc : field.createable = true
          · rw [if_pos hc]; exact Or.inr ⟨field, .vInt num, rfl, h1, hc, rfl⟩
          · rw [if_neg hc]; exact Or.inl rfl
      · rw [if_neg h2]
        by_cases h3 : field.type = "double" ∨ field.type = "currency" ∨
            field.type = "percent"
        · rw [if_pos h3]
          cases jsParseFloat iv.2 with
          | none => exact Or.inl rfl
          | some fnum =>
            dsimp only
            by_cases hc : field.createable = true
            · rw [if_pos hc]; exact Or.inr ⟨field, .vNum fnum, rfl, h1, hc, rfl⟩
            · rw [if_neg hc]; exact Or.inl rfl
        · rw [if_neg h3]
          by_cases h4 : field.type = "date" ∨ field.type = "datetime"
          · rw [if_pos h4]
            by_cases hc : iv.2 ≠ "" ∧ field.createable = true
            · rw [if_pos hc]
              exact Or.inr ⟨field, .vStr iv.2, rfl, h1, hc.2, rfl⟩
            · rw [if_neg hc]; exact Or.inl rfl
          · rw [if_neg h4]
            by_cases h5 : field.type = "boolean"
            · rw [if_pos h5]
              by_cases hc : field.createable = true
              · rw [if_pos hc]
                exact Or.inr ⟨field, .vBool (!jsFalseLiteral iv.2), rfl, h1, hc, rfl⟩
              · rw [if_neg hc]; exact Or.inl rfl
            · rw [if_neg h5]
              by_cases h6 : field.type = "reference"
              · rw [if_pos h6]
                by_cases hc : field.createable = true
                · rw [if_pos hc]
                  exact Or.inr ⟨field, .vRef (List.lookup iv.2 idMap), rfl, h1, hc, rfl⟩
                · rw [if_neg hc]; exact Or.inl rfl
              · rw [if_neg h6]
                by_cases hc : field.createable = true
                · rw [if_pos hc]
                  exact Or.inr ⟨field, .vStr iv.2, rfl, h1, hc, rfl⟩
                · rw [if_neg hc]; exact Or.inl rfl

/-- The conversion fold retains the cell under the last `id`-typed header. -/
theorem convert_fold_id (ds : LoadDataset) (idMap : List (String × String))
    (d : Describer) :
    ∀ (l : List (Nat × String)) (acc : Option String × SFRecord),
      (l.foldl (convertStep ds idMap d) acc).1 =
        (match (l.filter (fun iv =>
            match d.findFieldDescription ds.object (ds.headers.getD iv.1 "") with
            | some f => f.type == "id"
            | none => false)).getLast? with
          | some iv => some iv.2
          | none => acc.1) := by
  intro l
  induction l with
  | nil => intro acc; rfl
  | cons iv l' ih =>
    intro acc
    rw [List.foldl_cons, List.filter_cons]
    by_cases hp : (match d.findFieldDescription ds.object (ds.headers.getD iv.1 "") with
        | some f => f.type == "id"
        | none => false) = true
    · rw [if_pos hp, ih]
      have hfst : (convertStep ds idMap d acc iv).1 = some iv.2 := by
        rw [convertStep_fst, if_pos hp]
      cases hfl : List.filter (fun iv =>
          match d.findFieldDescription ds.object (ds.headers.getD iv.1 "") with
          | some f => f.type == "id"
          | none => false) l' with
      | nil => rw [hfst]; rfl
      | cons x xs =>
        rw [List.getLast?_cons_cons]
        cases hy : (x :: xs).getLast? with
        | none =>
          have hne : (x :: xs).getLast?.isSome = true :=
            List.getLast?_isSome.mpr (by simp)
          rw [hy] at hne
          exact Bool.noConfusion hne
        | some y => rfl
    · rw [if_neg hp, ih]
      have hfst : (convertStep ds idMap d acc iv).1 = acc.1 := by
        rw [convertStep_fst, if_neg hp]
      cases List.filter (fun iv =>
          match d.findFieldDescription ds.object (ds.headers.getD iv.1 "") with
          | some f => f.type == "id"
          | none => false) l' with
      | nil => rw [hfst]
      | cons x xs => rfl

/-- Every entry of the conversion fold's record traces back to a createable
non-`id` field resolved from one of the walked cells. -/
theorem convert_fold_record_keys (ds : LoadDataset)
    (idMap : List (String × String)) (d : Describer) :
    ∀ (l : List (Nat × String)) (acc : Option String × SFRecord) (k : String)
      (v : FieldValue),
      (k, v) ∈ (l.foldl (convertStep ds idMap d) acc).2 →
      (k, v) ∈ acc.2
      ∨ ∃ iv ∈ l, ∃ f,
          d.findFieldDescription ds.object (ds.headers.getD iv.1 "") = some f
          ∧ f.name = k ∧ f.type ≠ "id" ∧ f.createable = true := by
  intro l
  induction l with
  | nil => intro acc k v h; exact Or.inl h
  | cons iv l' ih =>
    intro acc k v h
    rw [List.foldl_cons] at h
    rcases ih (convertStep ds idMap d acc iv) k v h with hacc | ⟨iv', hiv', f, hf, hfn, hft, hfc⟩
    · rcases convertStep_snd ds idMap d acc iv with heq | ⟨f, val, hf, hft, hfc, heq⟩
      · rw [heq] at hacc
        exact Or.inl hacc
      · rw [heq] at hacc
        rcases mem_jsSet hacc with hmem | hk
        · exact Or.inl hmem
        · exact Or.inr ⟨iv, List.mem_cons_self _ _, f, hf, by rw [hk], hft, hfc⟩
    · exact Or.inr ⟨iv', List.mem_cons_of_mem _ hiv', f, hf, hfn, hft, hfc⟩

/-- `lastIdCell` through `getLast?` of the filtered enumeration. -/
theorem lastIdCell_eq (ds : LoadDataset) (d : Describer) (row : List String) :
    lastIdCell ds d row =
      (match ((row.enum).filter (fun iv =>
          match d.findFieldDescription ds.object (ds.headers.getD iv.1 "") with
          | some f => f.type == "id"
          | none => false)).getLast? with
        | some iv => some iv.2
        | none => none) := by
  unfold lastIdCell idCells
  rw [List.getLast?_map]
  cases ((row.enum).filter (fun iv =>
      match d.findFieldDescription ds.object (ds.headers.getD iv.1 "") with
      | some f => f.type == "id"
      | none => false)).getLast? with
  | none => rfl
  | some iv => rfl

/-- C6 (amended): conversion raises the missing-id error exactly when the
row has no id cell *or its (last) id cell is empty*—the final check is the
JavaScript truthiness test `!id`.  When the id cell is non-empty, conversion
succeeds, retains that cell as the pair's origId, and every key of the
outgoing record is the name of a createable non-`id` field. -/
theorem C6_missing_id_amended (ds : LoadDataset) (row : List String)
    (idMap : List (String × String)) (d : Describer) :
    ((lastIdCell ds d row = none ∨ lastIdCell ds d row = some "") →
      convertToRecordIdPair ds row idMap d =
        Except.error ("No id type field is found: " ++ ds.object))
    ∧ (∀ id0, lastIdCell ds d row = some id0 → id0 ≠ "" →
        ∃ record, convertToRecordIdPair ds row idMap d = Except.ok ⟨id0, record⟩
          ∧ ∀ k v, (k, v) ∈ record →
              ∃ iv ∈ row.enum, ∃ f,
                d.findFieldDescription ds.object (ds.headers.getD iv.1 "") = some f
                ∧ f.name = k ∧ f.type ≠ "id" ∧ f.createable = true) := by
  have hid : ((row.enum).foldl (convertStep ds idMap d) (none, [])).1 =
      lastIdCell ds d row := by
    rw [convert_fold_id, lastIdCell_eq]
  constructor
  · intro hcase
    unfold convertToRecordIdPair
    cases hfold : (row.enum).foldl (convertStep ds idMap d) (none, []) with
    | mk oid record =>
      rw [hfold] at hid
      rcases hcase with hnone | hempty
      · rw [hnone] at hid
        cases oid with
        | none => rfl
        | some x => cases hid
      · rw [hempty] at hid
        cases oid with
        | none => cases hid
        | some x =>
          have hx : x = "" := by
            injection hid with hx
          subst hx
          show (if ("" : String) = "" then
              Except.error ("No id type field is found: " ++ ds.object)
            else Except.ok (RecordIdPair.mk "" record)) =
            Except.error ("No id type field is found: " ++ ds.object)
          rw [if_pos rfl]
  · intro id0 hlast hne
    unfold convertToRecordIdPair
    cases hfold : (row.enum).foldl (convertStep ds idMap d) (none, []) with
    | mk oid record =>
      rw [hfold] at hid
      rw [hlast] at hid
      cases oid with
      | none => cases hid
      | some x =>
        have hx : x = id0 := by injection hid with hx
        subst hx
        refine ⟨record, ?_, ?_⟩
        · show (if x = "" then
              Except.error ("No id type field is found: " ++ ds.object)
            else Except.ok (RecordIdPair.mk x record)) =
            Except.ok (RecordIdPair.mk x record)
          rw [if_neg hne]
        intro k v hkv
        have := convert_fold_record_keys ds idMap d (row.enum) (none, []) k v
          (by rw [hfold]; exact hkv)
        rcases this with hmem | hrest
        · cases hmem
        · exact hrest

/-- Witness for the amended C6 on a well-formed Account row. -/
theorem C6_missing_id_amended_witness :
    lastIdCell accountDataset describerEx ["A1", "x", "U1"] = some "A1"
    ∧ ("A1" : String) ≠ ""
    ∧ ∃ record, convertToRecordIdPair accountDataset ["A1", "x", "U1"] []
          describerEx = Except.ok ⟨"A1", record⟩
        ∧ ∀ k v, (k, v) ∈ record →
            ∃ iv ∈ (["A1", "x", "U1"] : List String).enum, ∃ f,
              describerEx.findFieldDescription accountDataset.object
                (accountDataset.headers.getD iv.1 "") = some f
              ∧ f.name = k ∧ f.type ≠ "id" ∧ f.createable = true :=
  ⟨by decide, by decide,
    (C6_missing_id_amended accountDataset ["A1", "x", "U1"] [] describerEx).2
      "A1" (by decide) (by decide)⟩

/-- Witness for the amended C2 on a one-record batch over a pre-seeded map. -/
theorem C2_idmap_monotone_amended_witness :
    uploadRecords numberedCreate
        [("Account", [⟨"a1", [("Name", FieldValue.vStr "x")]⟩])]
        [("u0", "t0")] dupDescriber =
      Except.ok ([⟨"Account", "a1", "n0", [("Name", FieldValue.vStr "x")]⟩], [],
        [("u0", "t0"), ("a1", "n0")])
    ∧ (List.lookup "u0" [("u0", "t0"), ("a1", "n0")]).isSome = true :=
  ⟨rfl,
    (C2_idmap_monotone_amended numberedCreate dupDescriber
      [("Account", [⟨"a1", [("Name", FieldValue.vStr "x")]⟩])] [("u0", "t0")]
      [⟨"Account", "a1", "n0", [("Name", FieldValue.vStr "x")]⟩] []
      [("u0", "t0"), ("a1", "n0")] rfl).1 "u0" (by decide)⟩



/-! ## C4: lemmas on the seeded id map and its use by the run -/



theorem mem_jsSet_entry {α : Type} {m : List (String × α)} {key : String}
    {val : α} {e : String × α} (h : e ∈ jsSet m key val) :
    e ∈ m ∨ e = (key, val) := by
  induction m with
  | nil =>
    unfold jsSet at h
    exact Or.inr (List.mem_singleton.mp h)
  | cons p rest ih =>
    obtain ⟨k0, v0⟩ := p
    unfold jsSet at h
    by_cases h0 : k0 = key
    · rw [if_pos h0] at h
      rcases List.mem_cons.mp h with heq | hmem
      · exact Or.inr heq
      · exact Or.inl (List.mem_cons_of_mem _ hmem)
    · rw [if_neg h0] at h
      rcases List.mem_cons.mp h with heq | hmem
      · exact Or.inl (List.mem_cons.mpr (Or.inl heq))
      · rcases ih hmem with hmem' | he
        · exact Or.inl (List.mem_cons_of_mem _ hmem')
        · exact Or.inr he

/-- Seeding leaves keys outside the seed unchanged. -/
theorem seedIdMap_lookup_not_mem (k : String) :
    ∀ (seeds base : List (String × String)), k ∉ seeds.map Prod.fst →
      List.lookup k (seedIdMap base seeds) = List.lookup k base := by
  intro seeds
  induction seeds with
  | nil => intro base h; rfl
  | cons kv rest ih =>
    intro base h
    have hk : k ≠ kv.1 := by
      intro he
      exact h (by rw [List.map_cons]; exact List.mem_cons.mpr (Or.inl he))
    have hrest : k ∉ rest.map Prod.fst := by
      intro hm
      exact h (by rw [List.map_cons]; exact List.mem_cons_of_mem _ hm)
    show List.lookup k (seedIdMap (jsSet base kv.1 kv.2) rest) = List.lookup k base
    rw [ih (jsSet base kv.1 kv.2) hrest]
    exact lookup_jsSet_ne base kv.1 k kv.2 hk

/-- With pairwise-distinct seed keys, every seed entry is a binding of the
seeded map. -/
theorem seedIdMap_lookup_mem (k v : String) :
    ∀ (seeds base : List (String × String)),
      (seeds.map Prod.fst).Nodup → (k, v) ∈ seeds →
      List.lookup k (seedIdMap base seeds) = some v := by
  intro seeds
  induction seeds with
  | nil => intro base hnd hm; cases hm
  | cons kv rest ih =>
    intro base hnd hm
    obtain ⟨k1, v1⟩ := kv
    rw [List.map_cons] at hnd
    rcases List.mem_cons.mp hm with heq | hmem
    · have hk1 : k = k1 := congrArg Prod.fst heq
      have hv1 : v = v1 := congrArg Prod.snd heq
      subst hk1
      subst hv1
      have hnot : k ∉ rest.map Prod.fst := (List.nodup_cons.mp hnd).1
      show List.lookup k (seedIdMap (jsSet base k v) rest) = some v
      rw [seedIdMap_lookup_not_mem k rest (jsSet base k v) hnot]
      exact lookup_jsSet_self base k v
    · have hnd' : (rest.map Prod.fst).Nodup := (List.nodup_cons.mp hnd).2
      exact ih (jsSet base k1 v1) hnd' hmem

/-- The id-index accumulator of one header-scan step. -/
theorem scanStep_fst (object : String) (d : Describer)
    (acc : Option Nat × List RefField) (iv : Nat × String) :
    (scanStep object d acc iv).1 =
      (if (match d.findFieldDescription object iv.2 with
          | some f => f.type == "id"
          | none => false) = true then some iv.1 else acc.1) := by
  unfold scanStep
  cases hf : d.findFieldDescription object iv.2 with
  | none => simp
  | some field =>
    dsimp only
    by_cases h1 : field.type = "id"
    · have hbt : (field.type == "id") = true := beq_iff_eq.mpr h1
      rw [if_pos h1, if_pos hbt]
    · have hbf : ¬((field.type == "id") = true) := fun hh => h1 (beq_iff_eq.mp hh)
      rw [if_neg h1, if_neg hbf]
      by_cases h2 : field.type = "reference"
      · rw [if_pos h2]
        by_cases h3 : field.referenceTo.any
            (fun refObject => (d.findSObjectDescription refObject).isSome) = true
        · rw [if_pos h3]
        · rw [if_neg h3]
      · rw [if_neg h2]

/-- The header scan retains the index of the last `id`-typed header. -/
theorem scan_fold_id (object : String) (d : Describer) :
    ∀ (l : List (Nat × String)) (acc : Option Nat × List RefField),
      (l.foldl (scanStep object d) acc).1 =
        (match (l.filter (fun iv =>
            match d.findFieldDescription object iv.2 with
            | some f => f.type == "id"
            | none => false)).getLast? with
          | some iv => some iv.1
          | none => acc.1) := by
  intro l
  induction l with
  | nil => intro acc; rfl
  | cons iv l' ih =>
    intro acc
    rw [List.foldl_cons, List.filter_cons]
    by_cases hp : (match d.findFieldDescription object iv.2 with
        | some f => f.type == "id"
        | none => false) = true
    · rw [if_pos hp, ih]
      have hfst : (scanStep object d acc iv).1 = some iv.1 := by
        rw [scanStep_fst, if_pos hp]
      cases hfl : List.filter (fun iv =>
          match d.findFieldDescription object iv.2 with
          | some f => f.type == "id"
          | none => false) l' with
      | nil => rw [hfst]; rfl
      | cons x xs =>
        rw [List.getLast?_cons_cons]
        cases hy : (x :: xs).getLast? with
        | none =>
          have hne : (x :: xs).getLast?.isSome = true :=
            List.getLast?_isSome.mpr (by simp)
          rw [hy] at hne
          exact Bool.noConfusion hne
        | some y => rfl
    · rw [if_neg hp, ih]
      have hfst : (scanStep object d acc iv).1 = acc.1 := by
        rw [scanStep_fst, if_neg hp]
      cases List.filter (fun iv =>
          match d.findFieldDescription object iv.2 with
          | some f => f.type == "id"
          | none => false) l' with
      | nil => rw [hfst]
      | cons x xs => rfl

/-- An enumerated entry carries the list element at its index. -/
theorem mem_enumFrom_getD {α : Type} (dflt : α) :
    ∀ (l : List α) (k : Nat) (iv : Nat × α), iv ∈ l.enumFrom k →
      k ≤ iv.1 ∧ iv.2 = l.getD (iv.1 - k) dflt := by
  intro l
  induction l with
  | nil => intro k iv h; cases h
  | cons x xs ih =>
    intro k iv h
    rw [List.enumFrom_cons] at h
    rcases List.mem_cons.mp h with heq | hmem
    · subst heq
      exact ⟨Nat.le_refl k, by simp⟩
    · obtain ⟨hle, hv⟩ := ih (k + 1) iv hmem
      refine ⟨Nat.le_trans (Nat.le_succ k) hle, ?_⟩
      have harith : iv.1 - k = (iv.1 - (k + 1)) + 1 := by omega
      rw [harith]
      simpa using hv

theorem mem_enum_getD {α : Type} (dflt : α) (l : List α) (iv : Nat × α)
    (h : iv ∈ l.enum) : iv.2 = l.getD iv.1 dflt := by
  have := (mem_enumFrom_getD dflt l 0 iv h).2
  simpa using this

/-- Filtering two equal-length enumerations by an index predicate keeps the
same index sequence. -/
theorem enumFrom_filter_fst {α β : Type} (P : Nat → Bool) :
    ∀ (xs : List α) (ys : List β) (k : Nat), xs.length = ys.length →
      ((xs.enumFrom k).filter (fun iv => P iv.1)).map (fun iv => iv.1) =
        ((ys.enumFrom k).filter (fun iv => P iv.1)).map (fun iv => iv.1) := by
  intro xs
  induction xs with
  | nil =>
    intro ys k hlen
    cases ys with
    | nil => rfl
    | cons y ys' => cases hlen
  | cons x xs' ih =>
    intro ys k hlen
    cases ys with
    | nil => cases hlen
    | cons y ys' =>
      have hlen' : xs'.length = ys'.length := by simpa using hlen
      rw [List.enumFrom_cons, List.enumFrom_cons, List.filter_cons,
        List.filter_cons]
      dsimp only
      by_cases hP : P k = true
      · rw [if_pos hP, if_pos hP, List.map_cons, List.map_cons,
          ih ys' (k + 1) hlen']
      · rw [if_neg hP, if_neg hP, ih ys' (k + 1) hlen']

/-- When the header scan finds its (last) `id`-typed column at `idIndex` and
the row covers every header, the conversion's retained id cell is the row's
cell at `idIndex`. -/
theorem lastIdCell_of_scan (ds : LoadDataset) (d : Describer)
    (row : List String) (idIndex : Nat)
    (hscan : (scanColumns ds.object ds.headers d).1 = some idIndex)
    (hlen : row.length = ds.headers.length) :
    lastIdCell ds d row = some (row.getD idIndex "") := by
  have hname : (ds.headers.enum).filter (fun iv =>
      match d.findFieldDescription ds.object iv.2 with
      | some f => f.type == "id"
      | none => false) =
      (ds.headers.enum).filter (fun iv =>
        match d.findFieldDescription ds.object (ds.headers.getD iv.1 "") with
        | some f => f.type == "id"
        | none => false) := by
    refine List.filter_congr ?_
    intro iv hiv
    rw [mem_enum_getD "" ds.headers iv hiv]
  have hscan' := hscan
  unfold scanColumns at hscan'
  rw [scan_fold_id, hname] at hscan'
  -- the filtered headers enumeration ends in an entry of index idIndex
  cases hh : ((ds.headers.enum).filter (fun iv =>
      match d.findFieldDescription ds.object (ds.headers.getD iv.1 "") with
      | some f => f.type == "id"
      | none => false)).getLast? with
  | none => rw [hh] at hscan'; cases hscan'
  | some ivh =>
    rw [hh] at hscan'
    have hidx : ivh.1 = idIndex :=
      Option.some.inj (show (some ivh.1 : Option Nat) = some idIndex from hscan')
    -- transport along the index correspondence to the row enumeration
    have hfst := enumFrom_filter_fst (fun i =>
        match d.findFieldDescription ds.object (ds.headers.getD i "") with
        | some f => f.type == "id"
        | none => false) row ds.headers 0 hlen
    have hbeta : ((row.enum).filter (fun iv =>
        match d.findFieldDescription ds.object (ds.headers.getD iv.1 "") with
        | some f => f.type == "id"
        | none => false)).map (fun iv => iv.1) =
        ((ds.headers.enum).filter (fun iv =>
          match d.findFieldDescription ds.object (ds.headers.getD iv.1 "") with
          | some f => f.type == "id"
          | none => false)).map (fun iv => iv.1) := hfst
    have hlastrow : (((row.enum).filter (fun iv =>
        match d.findFieldDescription ds.object (ds.headers.getD iv.1 "") with
        | some f => f.type == "id"
        | none => false)).map (fun iv => iv.1)).getLast? = some idIndex := by
      rw [hbeta, List.getLast?_map, hh]
      simp only [Option.map_some']
      rw [hidx]
    rw [List.getLast?_map] at hlastrow
    obtain ⟨ivr, hivr, hivr1⟩ := Option.map_eq_some'.mp hlastrow
    have hivmem : ivr ∈ (row.enum).filter (fun iv =>
        match d.findFieldDescription ds.object (ds.headers.getD iv.1 "") with
        | some f => f.type == "id"
        | none => false) := List.mem_of_mem_getLast? hivr
    have hivenum : ivr ∈ row.enum := (List.mem_filter.mp hivmem).1
    have hcell : ivr.2 = row.getD ivr.1 "" := mem_enum_getD "" row ivr hivenum
    rw [lastIdCell_eq, hivr]
    dsimp only
    rw [hcell, hivr1]

/-- A successful conversion's origId is the row's retained id cell. -/
theorem convert_ok_id (ds : LoadDataset) (row : List String)
    (idMap : List (String × String)) (d : Describer) (pair : RecordIdPair)
    (h : convertToRecordIdPair ds row idMap d = Except.ok pair) :
    lastIdCell ds d row = some pair.id := by
  have hid : ((row.enum).foldl (convertStep ds idMap d) (none, [])).1 =
      lastIdCell ds d row := by
    rw [convert_fold_id, lastIdCell_eq]
  unfold convertToRecordIdPair at h
  cases hfold : (row.enum).foldl (convertStep ds idMap d) (none, []) with
  | mk oid record =>
    rw [hfold] at h hid
    cases oid with
    | none => dsimp only at h; cases h
    | some x =>
      dsimp only at h
      by_cases hx : x = ""
      · rw [if_pos hx] at h; cases h
      · rw [if_neg hx] at h
        injection h with h2
        rw [← h2]
        exact hid.symm

/-- Membership through `mapM` over `Except`. -/
theorem mapM_ok_mem {α β : Type} (f : α → Except String β) :
    ∀ (l : List α) (res : List β), l.mapM f = Except.ok res →
      ∀ b ∈ res, ∃ a ∈ l, f a = Except.ok b := by
  intro l
  induction l with
  | nil =>
    intro res h b hb
    have hres : res = [] :=
      (Except.ok.inj
        (show (Except.ok [] : Except String (List β)) = Except.ok res from h)).symm
    subst hres
    cases hb
  | cons x xs ih =>
    intro res h b hb
    rw [List.mapM_cons] at h
    cases hfx : f x with
    | error e =>
      rw [hfx] at h
      exact Except.noConfusion
        (show (Except.error e : Except String (List β)) = Except.ok res from h)
    | ok y =>
      rw [hfx] at h
      cases hxs : xs.mapM f with
      | error e =>
        rw [hxs] at h
        exact Except.noConfusion
          (show (Except.error e : Except String (List β)) = Except.ok res from h)
      | ok ys =>
        rw [hxs] at h
        have hres : y :: ys = res :=
          Except.ok.inj
            (show (Except.ok (y :: ys) : Except String (List β)) =
              Except.ok res from h)
        subst hres
        rcases List.mem_cons.mp hb with hbx | hbxs
        · exact ⟨x, List.mem_cons_self x xs, by rw [hfx, hbx]⟩
        · obtain ⟨a, ha, hfa⟩ := ih ys hxs b hbxs
          exact ⟨a, List.mem_cons_of_mem x ha, hfa⟩

/-- Batch ids introduced by one pass step over an empty target set are
unbound in the pass's id map. -/
theorem uploadPassStep_new_ids (idMap : List (String × String)) (d : Describer)
    (st : PassResult) (ds : LoadDataset) (st' : PassResult)
    (h0 : st.targetIds = [])
    (hlen : ∀ row ∈ ds.rows, row.length = ds.headers.length)
    (h : uploadPassStep idMap d st ds = Except.ok st') :
    ∀ id ∈ pairIds st'.uploadings,
      id ∈ pairIds st.uploadings ∨ List.lookup id idMap = none := by
  unfold uploadPassStep at h
  rw [h0] at h
  split at h
  · cases h
  · rename_i res hres
    split at h
    · cases h
    · rename_i pairs hpairs
      cases h
      intro id hid
      dsimp only [pairIds] at hid
      by_cases hl : pairs.length > 0
      · rw [if_pos hl] at hid
        rw [List.mem_flatMap] at hid
        obtain ⟨e, he, hpe⟩ := hid
        rcases mem_jsSet_entry he with hein | heq
        · left
          rw [pairIds, List.mem_flatMap]
          exact ⟨e, hein, hpe⟩
        · right
          subst heq
          rw [List.mem_map] at hpe
          obtain ⟨p, hp, hpid⟩ := hpe
          obtain ⟨rw0, hrw0, hconv⟩ := mapM_ok_mem _ res.uploadables pairs hpairs p hp
          -- the uploadable row's id cell is unbound
          unfold filterUploadableRecords at hres
          cases hscan : (scanColumns ds.object ds.headers d).1 with
          | none => rw [hscan] at hres; cases hres
          | some idIndex =>
            rw [hscan] at hres
            cases hres
            rw [filter_fold_empty_targets] at hrw0
            dsimp only at hrw0
            rw [List.nil_append] at hrw0
            have hconds := (List.mem_filter.mp hrw0).2
            have hrowmem := (List.mem_filter.mp hrw0).1
            rw [Bool.and_eq_true] at hconds
            have hnone : (List.lookup (rw0.getD idIndex "") idMap).isNone = true :=
              hconds.1
            have hkey : p.id = rw0.getD idIndex "" := by
              have hcid := convert_ok_id ds rw0 idMap d p hconv
              have hcell := lastIdCell_of_scan ds d rw0 idIndex hscan
                (hlen rw0 hrowmem)
              rw [hcid] at hcell
              exact Option.some.inj hcell
            rw [← hpid, hkey]
            exact Option.isNone_iff_eq_none.mp hnone
      · rw [if_neg hl] at hid
        left
        exact hid

/-- Batch ids of a whole pass over an empty target set: new relative to the
accumulator only when unbound. -/
theorem uploadPassGo_new_ids (idMap : List (String × String)) (d : Describer) :
    ∀ (dss : List LoadDataset) (st st' : PassResult), st.targetIds = [] →
      (∀ ds ∈ dss, ∀ row ∈ ds.rows, row.length = ds.headers.length) →
      uploadPassGo idMap d dss st = Except.ok st' →
      ∀ id ∈ pairIds st'.uploadings,
        id ∈ pairIds st.uploadings ∨ List.lookup id idMap = none := by
  intro dss
  induction dss with
  | nil =>
    intro st st' h0 hrows h id hid
    cases h
    exact Or.inl hid
  | cons ds rest ih =>
    intro st st' h0 hrows h id hid
    unfold uploadPassGo at h
    split at h
    · cases h
    · rename_i st1 hst1
      have h1 : st1.targetIds = [] :=
        uploadPassStep_targetIds idMap d st ds st1 h0 hst1
      rcases ih st1 st' h1
          (fun ds2 hm => hrows ds2 (List.mem_cons_of_mem _ hm)) h id hid with
        hmem | hnone
      · exact uploadPassStep_new_ids idMap d st ds st1 h0
          (hrows ds (List.mem_cons_self _ _)) hst1 id hmem
      · exact Or.inr hnone

/-- A pass step only rewrites a dataset's rows down to its waitings. -/
theorem uploadPassStep_datasets (idMap : List (String × String))
    (d : Describer) (st : PassResult) (ds : LoadDataset) (st' : PassResult)
    (h0 : st.targetIds = [])
    (h : uploadPassStep idMap d st ds = Except.ok st') :
    ∀ ds' ∈ st'.datasets, ds' ∈ st.datasets ∨
      (ds'.headers = ds.headers ∧ ∀ row ∈ ds'.rows, row ∈ ds.rows) := by
  unfold uploadPassStep at h
  rw [h0] at h
  split at h
  · cases h
  · rename_i res hres
    split at h
    · cases h
    · rename_i pairs hpairs
      cases h
      intro ds' hds'
      dsimp only at hds'
      rcases List.mem_append.mp hds' with hin | hnew
      · exact Or.inl hin
      · right
        have hds'' : ds' = { ds with rows := res.waitings.map (fun w => w.row) } :=
          List.mem_singleton.mp hnew
        subst hds''
        refine ⟨rfl, ?_⟩
        intro row hrow
        dsimp only at hrow
        rw [List.mem_map] at hrow
        obtain ⟨w, hw, hwrow⟩ := hrow
        unfold filterUploadableRecords at hres
        cases hscan : (scanColumns ds.object ds.headers d).1 with
        | none => rw [hscan] at hres; cases hres
        | some idIndex =>
          rw [hscan] at hres
          cases hres
          rw [filter_fold_empty_targets] at hw
          dsimp only at hw
          rw [List.nil_append] at hw
          rw [List.mem_map] at hw
          obtain ⟨row0, hrow0, hweq⟩ := hw
          have : w.row = row0 := by rw [← hweq]
          rw [← hwrow, this]
          exact (List.mem_filter.mp hrow0).1

/-- Dataset provenance across a whole pass. -/
theorem uploadPassGo_datasets (idMap : List (String × String))
    (d : Describer) :
    ∀ (dss : List LoadDataset) (st st' : PassResult), st.targetIds = [] →
      uploadPassGo idMap d dss st = Except.ok st' →
      ∀ ds' ∈ st'.datasets, ds' ∈ st.datasets ∨
        ∃ ds ∈ dss, ds'.headers = ds.headers ∧ ∀ row ∈ ds'.rows, row ∈ ds.rows := by
  intro dss
  induction dss with
  | nil =>
    intro st st' h0 h ds' hds'
    cases h
    exact Or.inl hds'
  | cons ds rest ih =>
    intro st st' h0 h ds' hds'
    unfold uploadPassGo at h
    split at h
    · cases h
    · rename_i st1 hst1
      have h1 : st1.targetIds = [] :=
        uploadPassStep_targetIds idMap d st ds st1 h0 hst1
      rcases ih st1 st' h1 h ds' hds' with hmem | ⟨ds0, hds0, hprop⟩
      · rcases uploadPassStep_datasets idMap d st ds st1 h0 hst1 ds' hmem with
          hin | hprop
        · exact Or.inl hin
        · exact Or.inr ⟨ds, List.mem_cons_self _ _, hprop⟩
      · exact Or.inr ⟨ds0, List.mem_cons_of_mem _ hds0, hprop⟩

/-- A binding of the id map persists through the whole driver run (started
with an empty target set and full-length rows): the classifier withholds
rows whose id is already bound, so no batch ever contains that key. -/
theorem uploadDatasets_binding (create : CreateFn) (d : Describer) :
    ∀ (fuel : Nat) (dss : List LoadDataset) (idMap : List (String × String))
      (st : UploadStatus) (r : RunResult),
      (∀ ds ∈ dss, ∀ row ∈ ds.rows, row.length = ds.headers.length) →
      uploadDatasets create d fuel dss [] idMap st = Except.ok r →
      ∀ k v, List.lookup k idMap = some v → List.lookup k r.idMap = some v := by
  intro fuel
  induction fuel with
  | zero => intro dss idMap st r hrows h; cases h
  | succ fuel ih =>
    intro dss idMap st r hrows h k v hk
    unfold uploadDatasets at h
    split at h
    · cases h
    · rename_i pass hpass
      have htids : pass.targetIds = [] := by
        unfold uploadPass at hpass
        exact uploadPassGo_targetIds idMap d dss ⟨[], [], [], []⟩ pass rfl hpass
      split at h
      · rename_i hgt
        split at h
        · cases h
        · rename_i successes1 failures1 idMap1 hrecs
          have hnotin : k ∉ pairIds pass.uploadings := by
            intro hmem
            have := uploadPassGo_new_ids idMap d dss ⟨[], [], [], []⟩ pass rfl
              hrows hpass k hmem
            rcases this with hcontr | hnone
            · cases hcontr
            · rw [hk] at hnone
              cases hnone
          have hk' : List.lookup k idMap1 = some v := by
            rw [uploadRecords_untouched create d pass.uploadings idMap successes1
              failures1 idMap1 hrecs k hnotin]
            exact hk
          have hrows' : ∀ ds ∈ pass.datasets, ∀ row ∈ ds.rows,
              row.length = ds.headers.length := by
            intro ds hds row hrow
            have := uploadPassGo_datasets idMap d dss ⟨[], [], [], []⟩ pass rfl
              (by unfold uploadPass at hpass; exact hpass) ds hds
            rcases this with hnil | ⟨ds0, hds0, hhead, hsub⟩
            · cases hnil
            · rw [hhead]
              exact hrows ds0 hds0 row (hsub row hrow)
          rw [htids] at h
          exact ih pass.datasets idMap1
            ⟨st.totalCount, st.successes ++ successes1, st.failures ++ failures1,
              pass.blocked⟩ r hrows' h k v hk'
      · cases h
        exact hk


/-- The record accumulator of one conversion step, with the written value's
reference payload pinned to the id-map lookup of the walked cell. -/
theorem convertStep_snd_ref (ds : LoadDataset) (idMap : List (String × String))
    (d : Describer) (acc : Option String × SFRecord) (iv : Nat × String) :
    (convertStep ds idMap d acc iv).2 = acc.2
    ∨ ∃ f val,
        d.findFieldDescription ds.object (ds.headers.getD iv.1 "") = some f
        ∧ (convertStep ds idMap d acc iv).2 = jsSet acc.2 f.name val
        ∧ ∀ r, val = FieldValue.vRef r → r = List.lookup iv.2 idMap := by
  unfold convertStep
  cases hf : d.findFieldDescription ds.object (ds.headers.getD iv.1 "") with
  | none => exact Or.inl rfl
  | some field =>
    dsimp only
    by_cases h1 : field.type = "id"
    · rw [if_pos h1]; exact Or.inl rfl
    · rw [if_neg h1]
      by_cases h2 : field.type = "int"
      · rw [if_pos h2]
        cases jsParseInt iv.2 with
        | none => exact Or.inl rfl
        | some num =>
          dsimp only
          by_cases hc : field.createable = true
          · rw [if_pos hc]
            exact Or.inr ⟨field, .vInt num, rfl, rfl,
              fun r hr => FieldValue.noConfusion hr⟩
          · rw [if_neg hc]; exact Or.inl rfl
      · rw [if_neg h2]
        by_cases h3 : field.type = "double" ∨ field.type = "currency" ∨
            field.type = "percent"
        · rw [if_pos h3]
          cases jsParseFloat iv.2 with
          | none => exact Or.inl rfl
          | some fnum =>
            dsimp only
            by_cases hc : field.createable = true
            · rw [if_pos hc]
              exact Or.inr ⟨field, .vNum fnum, rfl, rfl,
                fun r hr => FieldValue.noConfusion hr⟩
            · rw [if_neg hc]; exact Or.inl rfl
        · rw [if_neg h3]
          by_cases h4 : field.type = "date" ∨ field.type = "datetime"
          · rw [if_pos h4]
            by_cases hc : iv.2 ≠ "" ∧ field.createable = true
            · rw [if_pos hc]
              exact Or.inr ⟨field, .vStr iv.2, rfl, rfl,
                fun r hr => FieldValue.noConfusion hr⟩
            · rw [if_neg hc]; exact Or.inl rfl
          · rw [if_neg h4]
            by_cases h5 : field.type = "boolean"
            · rw [if_pos h5]
              by_cases hc : field.createable = true
              · rw [if_pos hc]
                exact Or.inr ⟨field, .vBool (!jsFalseLiteral iv.2), rfl, rfl,
                  fun r hr => FieldValue.noConfusion hr⟩
              · rw [if_neg hc]; exact Or.inl rfl
            · rw [if_neg h5]
              by_cases h6 : field.type = "reference"
              · rw [if_pos h6]
                by_cases hc : field.createable = true
                · rw [if_pos hc]
                  exact Or.inr ⟨field, .vRef (List.lookup iv.2 idMap), rfl, rfl,
                    fun r hr => (FieldValue.vRef.inj hr).symm⟩
                · rw [if_neg hc]; exact Or.inl rfl
              · rw [if_neg h6]
                by_cases hc : field.createable = true
                · rw [if_pos hc]
                  exact Or.inr ⟨field, .vStr iv.2, rfl, rfl,
                    fun r hr => FieldValue.noConfusion hr⟩
                · rw [if_neg hc]; exact Or.inl rfl

/-- Every reference value of the conversion fold's record is the id-map
lookup of one of the walked cells. -/
theorem convert_fold_ref (ds : LoadDataset) (idMap : List (String × String))
    (d : Describer) :
    ∀ (l : List (Nat × String)) (acc : Option String × SFRecord) (k : String)
      (r : Option String),
      (k, FieldValue.vRef r) ∈ (l.foldl (convertStep ds idMap d) acc).2 →
      (k, FieldValue.vRef r) ∈ acc.2 ∨ ∃ iv ∈ l, r = List.lookup iv.2 idMap := by
  intro l
  induction l with
  | nil => intro acc k r h; exact Or.inl h
  | cons iv l' ih =>
    intro acc k r h
    rw [List.foldl_cons] at h
    rcases ih (convertStep ds idMap d acc iv) k r h with hacc | ⟨iv', hiv', hr⟩
    · rcases convertStep_snd_ref ds idMap d acc iv with heq | ⟨f, val, hf, heq, href⟩
      · rw [heq] at hacc
        exact Or.inl hacc
      · rw [heq] at hacc
        rcases mem_jsSet_entry hacc with hmem | hpair
        · exact Or.inl hmem
        · have hval : val = FieldValue.vRef r := (congrArg Prod.snd hpair).symm
          exact Or.inr ⟨iv, List.mem_cons_self _ _, href r hval⟩
    · exact Or.inr ⟨iv', List.mem_cons_of_mem _ hiv', hr⟩

/-- C4: the caller-supplied `idMap` option seeds the run's IdMap.  Every
seed entry (with pairwise-distinct seed keys) is present at run start; a
row whose id cell equals a seeded sourceId is classified not-loadable;
every reference value a conversion writes is the id-map lookup of its own
cell, so a cell holding sourceId is rewritten to `some targetId`; and (for
full-length rows) the seeded binding is in the run's final idMap. -/
theorem C4_seed_idmap (create : CreateFn) (d : Describer)
    (options : UploadOptions) (resolvedIdMap : List (String × String))
    (sourceId targetId : String)
    (hnd : (options.idMap.map Prod.fst).Nodup)
    (hmem : (sourceId, targetId) ∈ options.idMap) :
    List.lookup sourceId (seedIdMap resolvedIdMap options.idMap) = some targetId
    ∧ (∀ (ds : LoadDataset) (idIndex : Nat) (res : FilterResult)
        (row : List String),
        (scanColumns ds.object ds.headers d).1 = some idIndex →
        filterUploadableRecords ds [] (seedIdMap resolvedIdMap options.idMap) d =
          Except.ok res →
        row ∈ ds.rows → row.getD idIndex "" = sourceId →
        row ∈ res.notloadables)
    ∧ (∀ (ds : LoadDataset) (row : List String) (pair : RecordIdPair),
        convertToRecordIdPair ds row (seedIdMap resolvedIdMap options.idMap) d =
          Except.ok pair →
        ∀ k r, (k, FieldValue.vRef r) ∈ pair.record →
          ∃ iv ∈ row.enum,
            r = List.lookup iv.2 (seedIdMap resolvedIdMap options.idMap)
            ∧ (iv.2 = sourceId → r = some targetId))
    ∧ (∀ (datasets : List LoadDataset) (run : RunResult),
        (∀ ds ∈ datasets, ∀ row ∈ ds.rows, row.length = ds.headers.length) →
        upload create d datasets resolvedIdMap options = Except.ok run →
        List.lookup sourceId run.idMap = some targetId) := by
  have hseed : List.lookup sourceId (seedIdMap resolvedIdMap options.idMap) =
      some targetId :=
    seedIdMap_lookup_mem sourceId targetId options.idMap resolvedIdMap hnd hmem
  refine ⟨hseed, ?_, ?_, ?_⟩
  · intro ds idIndex res row hscan hfil hrow hcell
    unfold filterUploadableRecords at hfil
    rw [hscan] at hfil
    dsimp only at hfil
    rw [← Except.ok.inj hfil]
    rw [filter_fold_empty_targets]
    dsimp only
    rw [List.nil_append]
    refine List.mem_filter.mpr ⟨hrow, ?_⟩
    rw [hcell, hseed]
    rfl
  · intro ds row pair hconv k r hkr
    cases hfold : (row.enum).foldl
        (convertStep ds (seedIdMap resolvedIdMap options.idMap) d) (none, []) with
    | mk oid record =>
      unfold convertToRecordIdPair at hconv
      rw [hfold] at hconv
      cases oid with
      | none => dsimp only at hconv; cases hconv
      | some x =>
        dsimp only at hconv
        by_cases hx : x = ""
        · rw [if_pos hx] at hconv; cases hconv
        · rw [if_neg hx] at hconv
          injection hconv with h2
          rw [← h2] at hkr
          dsimp only at hkr
          have hmem' := convert_fold_ref ds (seedIdMap resolvedIdMap options.idMap)
            d (row.enum) (none, []) k r (by rw [hfold]; exact hkr)
          rcases hmem' with hnil | ⟨iv, hiv, hr⟩
          · cases hnil
          · refine ⟨iv, hiv, hr, ?_⟩
            intro hsrc
            rw [hr, hsrc]
            exact hseed
  · intro datasets run hrows hrun
    unfold upload at hrun
    exact uploadDatasets_binding create d (calcTotalUploadCount datasets + 1)
      datasets (seedIdMap resolvedIdMap options.idMap)
      ⟨calcTotalUploadCount datasets, [], [], []⟩ run hrows hrun
      sourceId targetId hseed

/-- Witness for C4: seeding `U1 → u-new` resolves the Account row's OwnerId
reference and survives to the final id map. -/
theorem C4_seed_idmap_witness :
    (("U1", "u-new") ∈ ([("U1", "u-new")] : List (String × String)))
    ∧ ((([("U1", "u-new")] : List (String × String)).map Prod.fst).Nodup)
    ∧ List.lookup "U1" (seedIdMap [] [("U1", "u-new")]) = some "u-new"
    ∧ (∀ ds ∈ [accountDataset, userDataset], ∀ row ∈ ds.rows,
        row.length = ds.headers.length)
    ∧ upload numberedCreate describerEx [accountDataset, userDataset] []
        ⟨none, [("U1", "u-new")]⟩ = Except.ok c4Run
    ∧ List.lookup "U1" c4Run.idMap = some "u-new" :=
  ⟨by decide, by decide,
    (C4_seed_idmap numberedCreate describerEx ⟨none, [("U1", "u-new")]⟩ []
      "U1" "u-new" (by decide) (by decide)).1,
    by decide, by rfl,
    (C4_seed_idmap numberedCreate describerEx ⟨none, [("U1", "u-new")]⟩ []
      "U1" "u-new" (by decide) (by decide)).2.2.2
      [accountDataset, userDataset] c4Run (by decide) (by rfl)⟩



/-! ## C7: lemmas on the dump closure loop -/

theorem mem_jsAdd {s : List String} {x y : String} (h : y ∈ jsAdd s x) :
    y ∈ s ∨ y = x := by
  unfold jsAdd at h
  by_cases hc : s.contains x = true
  · rw [if_pos hc] at h
    exact Or.inl h
  · rw [if_neg hc] at h
    rcases List.mem_append.mp h with hm | hm
    · exact Or.inl hm
    · exact Or.inr (List.mem_singleton.mp hm)

theorem mem_jsAdd_of_mem {s : List String} {x y : String} (h : y ∈ s) :
    y ∈ jsAdd s x := by
  unfold jsAdd
  by_cases hc : s.contains x = true
  · rw [if_pos hc]; exact h
  · rw [if_neg hc]; exact List.mem_append.mpr (Or.inl h)

theorem mem_jsAdd_self (s : List String) (x : String) : x ∈ jsAdd s x := by
  unfold jsAdd
  by_cases hc : s.contains x = true
  · rw [if_pos hc]
    exact List.elem_iff.mp hc
  · rw [if_neg hc]
    exact List.mem_append.mpr (Or.inr (List.mem_singleton.mpr rfl))

theorem jsAdd_nodup {s : List String} {x : String} (h : s.Nodup) :
    (jsAdd s x).Nodup := by
  unfold jsAdd
  by_cases hc : s.contains x = true
  · rw [if_pos hc]; exact h
  · rw [if_neg hc]
    rw [List.nodup_append]
    refine ⟨h, List.nodup_singleton x, ?_⟩
    intro a ha hax
    rw [List.mem_singleton.mp hax] at ha
    exact hc (List.elem_iff.mpr ha)

/-- The fold `records.foldl (fun ids r => jsAdd ids (recId r)) ids` used by
the seed and dependent phases: Nodup is preserved. -/
theorem foldAdd_nodup :
    ∀ (records : List DumpRecord) (ids : List String), ids.Nodup →
      (records.foldl (fun ids r => jsAdd ids (recId r)) ids).Nodup := by
  intro records
  induction records with
  | nil => intro ids h; exact h
  | cons r rest ih =>
    intro ids h
    rw [List.foldl_cons]
    exact ih (jsAdd ids (recId r)) (jsAdd_nodup h)

theorem foldAdd_mem_start :
    ∀ (records : List DumpRecord) (ids : List String) (y : String), y ∈ ids →
      y ∈ records.foldl (fun ids r => jsAdd ids (recId r)) ids := by
  intro records
  induction records with
  | nil => intro ids y h; exact h
  | cons r rest ih =>
    intro ids y h
    rw [List.foldl_cons]
    exact ih (jsAdd ids (recId r)) y (mem_jsAdd_of_mem h)

theorem foldAdd_mem_rec :
    ∀ (records : List DumpRecord) (ids : List String) (r : DumpRecord),
      r ∈ records →
      recId r ∈ records.foldl (fun ids r => jsAdd ids (recId r)) ids := by
  intro records
  induction records with
  | nil => intro ids r h; cases h
  | cons r0 rest ih =>
    intro ids r h
    rw [List.foldl_cons]
    rcases List.mem_cons.mp h with heq | hmem
    · subst heq
      exact foldAdd_mem_start rest (jsAdd ids (recId r)) (recId r)
        (mem_jsAdd_self ids (recId r))
    · exact ih (jsAdd ids (recId r0)) r hmem

theorem mem_foldAdd :
    ∀ (records : List DumpRecord) (ids : List String) (y : String),
      y ∈ records.foldl (fun ids r => jsAdd ids (recId r)) ids →
      y ∈ ids ∨ ∃ r ∈ records, recId r = y := by
  intro records
  induction records with
  | nil => intro ids y h; exact Or.inl h
  | cons r0 rest ih =>
    intro ids y h
    rw [List.foldl_cons] at h
    rcases ih (jsAdd ids (recId r0)) y h with hm | ⟨r, hr, hrid⟩
    · rcases mem_jsAdd hm with hm' | heq
      · exact Or.inl hm'
      · exact Or.inr ⟨r0, List.mem_cons_self _ _, heq.symm⟩
    · exact Or.inr ⟨r, List.mem_cons_of_mem _ hr, hrid⟩

/-- `Map.set` keeps duplicate-free keys. -/
theorem jsSet_keys_nodup {α : Type} {m : List (String × α)} {k : String}
    {v : α} (h : (m.map Prod.fst).Nodup) : ((jsSet m k v).map Prod.fst).Nodup := by
  induction m with
  | nil =>
    unfold jsSet
    exact List.nodup_singleton k
  | cons p rest ih =>
    obtain ⟨k0, v0⟩ := p
    rw [List.map_cons] at h
    unfold jsSet
    by_cases h0 : k0 = k
    · rw [if_pos h0, List.map_cons]
      subst h0
      exact h
    · rw [if_neg h0, List.map_cons]
      rw [List.nodup_cons] at h ⊢
      refine ⟨?_, ih h.2⟩
      intro hmem
      have : k0 ∈ rest.map Prod.fst ∨ k0 = k := by
        rw [List.mem_map] at hmem
        obtain ⟨e, he, heq⟩ := hmem
        rcases mem_jsSet_entry he with hin | hkv
        · exact Or.inl (List.mem_map.mpr ⟨e, hin, heq⟩)
        · rw [hkv] at heq
          exact Or.inr heq.symm
      rcases this with hm | hk
      · exact h.1 hm
      · exact h0 hk

/-- With duplicate-free keys, `Map.set` replaces exactly the `k` entry. -/
theorem mem_jsSet_entry_nodup {α : Type} {m : List (String × α)} {k : String}
    {v : α} {e : String × α} (hnd : (m.map Prod.fst).Nodup)
    (h : e ∈ jsSet m k v) : (e ∈ m ∧ e.1 ≠ k) ∨ e = (k, v) := by
  induction m with
  | nil =>
    unfold jsSet at h
    exact Or.inr (List.mem_singleton.mp h)
  | cons p rest ih =>
    obtain ⟨k0, v0⟩ := p
    rw [List.map_cons, List.nodup_cons] at hnd
    unfold jsSet at h
    by_cases h0 : k0 = k
    · rw [if_pos h0] at h
      rcases List.mem_cons.mp h with heq | hmem
      · exact Or.inr heq
      · left
        refine ⟨List.mem_cons_of_mem _ hmem, ?_⟩
        intro hek
        subst h0
        exact hnd.1 (List.mem_map.mpr ⟨e, hmem, hek⟩)
    · rw [if_neg h0] at h
      rcases List.mem_cons.mp h with heq | hmem
      · left
        refine ⟨List.mem_cons.mpr (Or.inl heq), ?_⟩
        rw [heq]
        exact h0
      · rcases ih hnd.2 hmem with ⟨hin, hne⟩ | heq
        · exact Or.inl ⟨List.mem_cons_of_mem _ hin, hne⟩
        · exact Or.inr heq

/-- `calcFetchedCount` is the length of the flattened (object, id) pairs. -/
theorem count_foldl_shift {α : Type} :
    ∀ (m : List (String × List α)) (a : Nat),
      m.foldl (fun n e => n + e.2.length) a =
        a + m.foldl (fun n e => n + e.2.length) 0 := by
  intro m
  induction m with
  | nil => intro a; simp
  | cons e m' ih =>
    intro a
    rw [List.foldl_cons, List.foldl_cons, ih (a + e.2.length), ih (0 + e.2.length)]
    omega

theorem calcFetchedCount_eq_length (m : List (String × List String)) :
    calcFetchedCount m = (flatPairs m).length := by
  induction m with
  | nil => rfl
  | cons e m' ih =>
    unfold calcFetchedCount at ih ⊢
    rw [List.foldl_cons, count_foldl_shift]
    unfold flatPairs at ih ⊢
    rw [List.flatMap_cons, List.length_append, List.length_map, ← ih]
    omega

theorem totalDbCount_eq_length (db : TargetDB) :
    totalDbCount db = (dbPairs db).length := by
  induction db with
  | nil => rfl
  | cons e db' ih =>
    unfold totalDbCount at ih ⊢
    rw [List.foldl_cons, count_foldl_shift]
    unfold dbPairs at ih ⊢
    rw [List.flatMap_cons, List.length_append, List.length_map, ← ih]
    omega

theorem mem_flatPairs {m : List (String × List String)} {a b : String}
    (h : (a, b) ∈ flatPairs m) : ∃ e ∈ m, e.1 = a ∧ b ∈ e.2 := by
  unfold flatPairs at h
  rw [List.mem_flatMap] at h
  obtain ⟨e, he, hb⟩ := h
  rw [List.mem_map] at hb
  obtain ⟨id, hid, heq⟩ := hb
  refine ⟨e, he, congrArg Prod.fst heq, ?_⟩
  rw [show b = id from (congrArg Prod.snd heq).symm]
  exact hid

theorem flatPairs_nodup {m : List (String × List String)}
    (hkeys : (m.map Prod.fst).Nodup) (hids : ∀ e ∈ m, e.2.Nodup) :
    (flatPairs m).Nodup := by
  induction m with
  | nil => exact List.nodup_nil
  | cons e m' ih =>
    rw [List.map_cons, List.nodup_cons] at hkeys
    unfold flatPairs
    rw [List.flatMap_cons, List.nodup_append]
    refine ⟨?_, ?_, ?_⟩
    · refine (hids e (List.mem_cons_self _ _)).map ?_
      intro x y hxy
      exact (Prod.mk.injEq e.1 x e.1 y ▸ hxy).2
    · exact ih hkeys.2 (fun e' he' => hids e' (List.mem_cons_of_mem _ he'))
    · intro p hp hp'
      rw [List.mem_map] at hp
      obtain ⟨id, hid, heq⟩ := hp
      obtain ⟨e', he', he1', hmem'⟩ := mem_flatPairs
        (show (e.1, id) ∈ flatPairs m' from heq ▸ hp')
      exact hkeys.1 (List.mem_map.mpr ⟨e', he', he1'⟩)

/-- `dbGet` entries with a hit come from the database. -/
theorem dbGet_mem {db : TargetDB} {object : String} {r : DumpRecord}
    (h : r ∈ dbGet db object) : ∃ recs, (object, recs) ∈ db ∧ r ∈ recs := by
  unfold dbGet at h
  cases hl : List.lookup object db with
  | none => rw [hl] at h; cases h
  | some recs =>
    rw [hl] at h
    exact ⟨recs, lookup_mem hl, h⟩

theorem dbGet_recId_mem {db : TargetDB} {object : String} {r : DumpRecord}
    (h : r ∈ dbGet db object) : (object, recId r) ∈ dbPairs db := by
  obtain ⟨recs, hrecs, hr⟩ := dbGet_mem h
  unfold dbPairs
  rw [List.mem_flatMap]
  exact ⟨(object, recs), hrecs, List.mem_map.mpr ⟨r, hr, rfl⟩⟩

/-- The invariant bounds the total fetched count by the database size. -/
theorem count_le_total {db : TargetDB} {st : DumpState} (hinv : DumpInv db st) :
    calcFetchedCount st.fetchedIdsMap ≤ totalDbCount db := by
  rw [calcFetchedCount_eq_length, totalDbCount_eq_length]
  refine List.Subperm.length_le ?_
  refine (flatPairs_nodup hinv.keysNodup hinv.idsNodup).subperm ?_
  intro p hp
  obtain ⟨a, b⟩ := p
  obtain ⟨e, he, he1, hb⟩ := mem_flatPairs hp
  have hid := hinv.idsSub e he b hb
  rw [List.mem_map] at hid
  obtain ⟨r, hr, hrid⟩ := hid
  rw [← he1, ← hrid]
  exact dbGet_recId_mem hr

/-- Generic foldl preservation. -/
theorem foldl_pres {α β : Type} (f : β → α → β) (Q : β → Prop)
    (hf : ∀ b a, Q b → Q (f b a)) :
    ∀ (l : List α) (b : β), Q b → Q (l.foldl f b) := by
  intro l
  induction l with
  | nil => intro b h; exact h
  | cons a l' ih =>
    intro b h
    rw [List.foldl_cons]
    exact ih (f b a) (hf b a h)

/-- `getFetchingIds` only collects ids outside the fetched set. -/
theorem getFetchingIds_spec (object : String)
    (m : List (String × List DumpRecord)) (fids : List String) (d : Describer)
    (o : DumpOptions) :
    ∀ id ∈ getFetchingIds object m fids d o, fids.contains id = false := by
  unfold getFetchingIds
  refine foldl_pres _ (fun ids => ∀ id ∈ ids, fids.contains id = false) ?_ m []
    (by intro id h; cases h)
  intro ids entry hQ
  cases d.findSObjectDescription entry.1 with
  | none => exact hQ
  | some description =>
    refine foldl_pres _ (fun ids => ∀ id ∈ ids, fids.contains id = false) ?_
      description.fields ids hQ
    intro ids2 field hQ2
    by_cases hcond : field.createable = true ∧ field.type = "reference" ∧
        includesInNamespace field.referenceTo object o.defaultNamespace = true
    · rw [if_pos hcond]
      refine foldl_pres _ (fun ids => ∀ id ∈ ids, fids.contains id = false) ?_
        entry.2 ids2 hQ2
      intro ids3 record hQ3
      cases getRecordFieldValue record field.name o.defaultNamespace with
      | none => exact hQ3
      | some refId =>
        dsimp only
        by_cases hguard : refId ≠ "" ∧ ¬ fids.contains refId = true
        · rw [if_pos hguard]
          intro id hid
          rcases mem_jsAdd hid with hm | heq
          · exact hQ3 id hm
          · subst heq
            cases hb : fids.contains id with
            | false => rfl
            | true => exact absurd hb hguard.2
        · rw [if_neg hguard]
          exact hQ3
    · rw [if_neg hcond]
      exact hQ2

/-- `relatedAdd` preserves: evolving ids Nodup, record-id Nodup, and record
ids covered by the evolving id set. -/
theorem relatedAdd_P :
    ∀ (records : List DumpRecord)
      (acc : List DumpRecord × List String × List String),
      acc.2.1.Nodup → (acc.1.map recId).Nodup →
      (∀ id ∈ acc.1.map recId, id ∈ acc.2.1) →
      (relatedAdd records acc).2.1.Nodup
      ∧ ((relatedAdd records acc).1.map recId).Nodup
      ∧ (∀ id ∈ (relatedAdd records acc).1.map recId,
          id ∈ (relatedAdd records acc).2.1) := by
  intro records
  induction records with
  | nil => intro acc h1 h2 h3; exact ⟨h1, h2, h3⟩
  | cons r rest ih =>
    intro acc h1 h2 h3
    unfold relatedAdd at ih ⊢
    rw [List.foldl_cons]
    by_cases hc : acc.2.1.contains (recId r) = true
    · rw [if_neg (not_not_intro hc)]
      exact ih acc h1 h2 h3
    · rw [if_pos hc]
      have hnotmem : recId r ∉ acc.2.1 := fun hm => hc (List.elem_iff.mpr hm)
      have h1' : (acc.2.1 ++ [recId r]).Nodup := by
        rw [List.nodup_append]
        refine ⟨h1, List.nodup_singleton _, ?_⟩
        intro a ha hax
        rw [List.mem_singleton.mp hax] at ha
        exact hnotmem ha
      have h2' : ((acc.1 ++ [r]).map recId).Nodup := by
        rw [List.map_append, List.nodup_append]
        refine ⟨h2, List.nodup_singleton _, ?_⟩
        intro a ha hax
        rw [List.map_singleton] at hax
        rw [List.mem_singleton.mp hax] at ha
        exact hnotmem (h3 _ ha)
      have h3' : ∀ id ∈ (acc.1 ++ [r]).map recId, id ∈ acc.2.1 ++ [recId r] := by
        intro id hid
        rw [List.map_append, List.mem_append] at hid
        rcases hid with hold | hnew
        · exact List.mem_append.mpr (Or.inl (h3 id hold))
        · rw [List.map_singleton] at hnew
          rw [List.mem_singleton.mp hnew]
          exact List.mem_append.mpr (Or.inr (List.mem_singleton.mpr rfl))
      exact ih (acc.1 ++ [r], acc.2.1 ++ [recId r], acc.2.2 ++ [recId r])
        h1' h2' h3'

/-- Ids of the `relatedAdd` result either started in the accumulator or come
from the pushed records. -/
theorem relatedAdd_mem_ids :
    ∀ (records : List DumpRecord)
      (acc : List DumpRecord × List String × List String) (y : String),
      y ∈ (relatedAdd records acc).2.1 →
      y ∈ acc.2.1 ∨ ∃ r ∈ records, recId r = y := by
  intro records
  induction records with
  | nil => intro acc y h; exact Or.inl h
  | cons r rest ih =>
    intro acc y h
    unfold relatedAdd at ih h
    rw [List.foldl_cons] at h
    by_cases hc : acc.2.1.contains (recId r) = true
    · rw [if_neg (not_not_intro hc)] at h
      rcases ih acc y h with hm | ⟨r', hr', hy⟩
      · exact Or.inl hm
      · exact Or.inr ⟨r', List.mem_cons_of_mem _ hr', hy⟩
    · rw [if_pos hc] at h
      rcases ih (acc.1 ++ [r], acc.2.1 ++ [recId r], acc.2.2 ++ [recId r]) y h
        with hm | ⟨r', hr', hy⟩
      · rcases List.mem_append.mp hm with hold | hnew
        · exact Or.inl hold
        · exact Or.inr ⟨r, List.mem_cons_self _ _,
            (List.mem_singleton.mp hnew).symm⟩
      · exact Or.inr ⟨r', List.mem_cons_of_mem _ hr', hy⟩

/-- A described object's target fields resolve. -/
theorem getTargetFields_ok (query : DumpQuery) (d : Describer)
    (desc : DescribeSObjectResult)
    (hdesc : d.findSObjectDescription query.object = some desc) :
    ∃ fs, getTargetFields query d = Except.ok fs := by
  unfold getTargetFields getTargetFieldDefinitions
  rw [hdesc]
  exact ⟨_, rfl⟩

/-- `fetchRelatedRecords` succeeds for a described object, returning target
records. -/
theorem fetchRelated_ok (db : TargetDB) (query : DumpQuery)
    (newly : List (String × List String)) (d : Describer) (o : DumpOptions)
    (desc : DescribeSObjectResult)
    (hdesc : d.findSObjectDescription query.object = some desc) :
    ∃ records, fetchRelatedRecords db query newly d o = Except.ok records
      ∧ ∀ r ∈ records, r ∈ dbGet db query.object := by
  unfold fetchRelatedRecords
  obtain ⟨fs, hfs⟩ := getTargetFields_ok query d desc hdesc
  rw [hfs]
  have hpr : ∃ conds, getParentRelationsMap query.object newly d o =
      Except.ok conds := by
    unfold getParentRelationsMap
    rw [hdesc]
    exact ⟨_, rfl⟩
  obtain ⟨conds, hconds⟩ := hpr
  rw [hconds]
  dsimp only
  by_cases hz : conds.length = 0
  · rw [if_pos hz]
    exact ⟨[], rfl, by intro r hr; cases hr⟩
  · rw [if_neg hz]
    refine ⟨_, rfl, ?_⟩
    intro r hr
    unfold applyMaxFetch at hr
    exact (List.mem_filter.mp (List.mem_of_mem_take hr)).1

/-- `fetchDependentRecords` succeeds for a described object, returning a
sublist of the target records whose ids are all unfetched. -/
theorem fetchDependent_ok (db : TargetDB) (query : DumpQuery)
    (m : List (String × List DumpRecord)) (fids : List String) (d : Describer)
    (o : DumpOptions) (desc : DescribeSObjectResult)
    (hdesc : d.findSObjectDescription query.object = some desc) :
    ∃ records, fetchDependentRecords db query m fids d o = Except.ok records
      ∧ records.Sublist (dbGet db query.object)
      ∧ ∀ r ∈ records, fids.contains (recId r) = false := by
  unfold fetchDependentRecords
  obtain ⟨fs, hfs⟩ := getTargetFields_ok query d desc hdesc
  rw [hfs]
  dsimp only
  by_cases hz : (getFetchingIds query.object m fids d o).length = 0
  · rw [if_pos hz]
    exact ⟨[], rfl, List.nil_sublist _, by intro r hr; cases hr⟩
  · rw [if_neg hz]
    refine ⟨_, rfl, ?_, ?_⟩
    · unfold applyMaxFetch
      exact (List.take_sublist _ _).trans (List.filter_sublist _)
    · intro r hr
      unfold applyMaxFetch at hr
      have hpred := (List.mem_filter.mp (List.mem_of_mem_take hr)).2
      exact getFetchingIds_spec query.object m fids d o (recId r)
        (List.elem_iff.mp hpred)

/-- Per-object projections of the invariant. -/
theorem inv_ids_nodup {db : TargetDB} {st : DumpState} (hinv : DumpInv db st)
    (obj : String) : ((List.lookup obj st.fetchedIdsMap).getD []).Nodup := by
  cases hl : List.lookup obj st.fetchedIdsMap with
  | none => exact List.nodup_nil
  | some ids => exact hinv.idsNodup (obj, ids) (lookup_mem hl)

theorem inv_ids_sub {db : TargetDB} {st : DumpState} (hinv : DumpInv db st)
    (obj : String) :
    ∀ id ∈ (List.lookup obj st.fetchedIdsMap).getD [],
      id ∈ (dbGet db obj).map recId := by
  cases hl : List.lookup obj st.fetchedIdsMap with
  | none => intro id h; cases h
  | some ids => exact hinv.idsSub (obj, ids) (lookup_mem hl)

theorem inv_recs_nodup {db : TargetDB} {st : DumpState} (hinv : DumpInv db st)
    (obj : String) :
    (((List.lookup obj st.fetchedRecordsMap).getD []).map recId).Nodup := by
  cases hl : List.lookup obj st.fetchedRecordsMap with
  | none => exact List.nodup_nil
  | some recs => exact hinv.recsNodup (obj, recs) (lookup_mem hl)

theorem inv_recs_sub {db : TargetDB} {st : DumpState} (hinv : DumpInv db st)
    (obj : String) :
    ∀ id ∈ ((List.lookup obj st.fetchedRecordsMap).getD []).map recId,
      id ∈ (List.lookup obj st.fetchedIdsMap).getD [] := by
  cases hl : List.lookup obj st.fetchedRecordsMap with
  | none => intro id h; cases h
  | some recs => exact hinv.recsSub (obj, recs) (lookup_mem hl)

theorem db_recs_nodup {db : TargetDB} (hdb : ∀ e ∈ db, (e.2.map recId).Nodup)
    (obj : String) : ((dbGet db obj).map recId).Nodup := by
  unfold dbGet
  cases hl : List.lookup obj db with
  | none => exact List.nodup_nil
  | some recs => exact hdb (obj, recs) (lookup_mem hl)




/-- One `related`-query step of the related expansion succeeds and preserves
the invariant. -/
theorem relatedStep_ok (db : TargetDB) (d : Describer) (o : DumpOptions)
    (st : DumpState) (q : DumpQuery)
    (hq1 : q.target = "related" → (d.findSObjectDescription q.object).isSome = true)
    (hinv : DumpInv db st) :
    ∃ st', relatedStep db d o st q = Except.ok st' ∧ DumpInv db st' := by
  unfold relatedStep
  by_cases ht : q.target ≠ "related"
  · rw [if_pos ht]
    exact ⟨st, rfl, hinv⟩
  · rw [if_neg ht]
    have ht' : q.target = "related" := not_not.mp ht
    obtain ⟨desc, hdesc⟩ := Option.isSome_iff_exists.mp (hq1 ht')
    obtain ⟨records, hfetch, hsub⟩ :=
      fetchRelated_ok db q st.newlyFetchedIdsMap d o desc hdesc
    rw [hfetch]
    dsimp only
    refine ⟨_, rfl, ?_⟩
    have hP := relatedAdd_P records
      ((List.lookup q.object st.fetchedRecordsMap).getD [],
       (List.lookup q.object st.fetchedIdsMap).getD [],
       (List.lookup q.object st.newlyFetchedIdsMap).getD [])
      (inv_ids_nodup hinv q.object) (inv_recs_nodup hinv q.object)
      (inv_recs_sub hinv q.object)
    refine ⟨?_, ?_, ?_, ?_, ?_, ?_⟩
    · exact jsSet_keys_nodup hinv.keysNodup
    · exact jsSet_keys_nodup hinv.recsKeysNodup
    · intro e he
      rcases mem_jsSet_entry_nodup hinv.keysNodup he with ⟨hin, hne⟩ | heq
      · exact hinv.idsNodup e hin
      · rw [heq]
        exact hP.1
    · intro e he
      rcases mem_jsSet_entry_nodup hinv.keysNodup he with ⟨hin, hne⟩ | heq
      · exact hinv.idsSub e hin
      · rw [heq]
        intro id hid
        rcases relatedAdd_mem_ids records _ id hid with hm | ⟨r, hr, hrid⟩
        · exact inv_ids_sub hinv q.object id hm
        · rw [← hrid]
          exact List.mem_map.mpr ⟨r, hsub r hr, rfl⟩
    · intro e he
      rcases mem_jsSet_entry_nodup hinv.recsKeysNodup he with ⟨hin, hne⟩ | heq
      · exact hinv.recsNodup e hin
      · rw [heq]
        exact hP.2.1
    · intro e he
      rcases mem_jsSet_entry_nodup hinv.recsKeysNodup he with ⟨hin, hne⟩ | heq
      · intro id hid
        rw [lookup_jsSet_ne st.fetchedIdsMap q.object e.1 _ hne]
        exact hinv.recsSub e hin id hid
      · rw [heq]
        intro id hid
        rw [lookup_jsSet_self]
        exact hP.2.2 id hid

/-- One `related`-query step of the dependent expansion succeeds and
preserves the invariant. -/
theorem dependentStep_ok (db : TargetDB) (d : Describer) (o : DumpOptions)
    (st : DumpState) (q : DumpQuery)
    (hq1 : q.target = "related" → (d.findSObjectDescription q.object).isSome = true)
    (hdb : ∀ e ∈ db, (e.2.map recId).Nodup)
    (hinv : DumpInv db st) :
    ∃ st', dependentStep db d o st q = Except.ok st' ∧ DumpInv db st' := by
  unfold dependentStep
  by_cases ht : q.target ≠ "related"
  · rw [if_pos ht]
    exact ⟨st, rfl, hinv⟩
  · rw [if_neg ht]
    have ht' : q.target = "related" := not_not.mp ht
    obtain ⟨desc, hdesc⟩ := Option.isSome_iff_exists.mp (hq1 ht')
    obtain ⟨records, hfetch, hsubl, hfree⟩ :=
      fetchDependent_ok db q st.fetchedRecordsMap
        ((List.lookup q.object st.fetchedIdsMap).getD []) d o desc hdesc
    rw [hfetch]
    dsimp only
    refine ⟨_, rfl, ?_⟩
    have hrecn : (records.map recId).Nodup :=
      (db_recs_nodup hdb q.object).sublist (hsubl.map recId)
    refine ⟨?_, ?_, ?_, ?_, ?_, ?_⟩
    · exact jsSet_keys_nodup hinv.keysNodup
    · exact jsSet_keys_nodup hinv.recsKeysNodup
    · intro e he
      rcases mem_jsSet_entry_nodup hinv.keysNodup he with ⟨hin, hne⟩ | heq
      · exact hinv.idsNodup e hin
      · rw [heq]
        exact foldAdd_nodup records _ (inv_ids_nodup hinv q.object)
    · intro e he
      rcases mem_jsSet_entry_nodup hinv.keysNodup he with ⟨hin, hne⟩ | heq
      · exact hinv.idsSub e hin
      · rw [heq]
        intro id hid
        rcases mem_foldAdd records _ id hid with hm | ⟨r, hr, hrid⟩
        · exact inv_ids_sub hinv q.object id hm
        · rw [← hrid]
          exact List.mem_map.mpr ⟨r, hsubl.subset hr, rfl⟩
    · intro e he
      rcases mem_jsSet_entry_nodup hinv.recsKeysNodup he with ⟨hin, hne⟩ | heq
      · exact hinv.recsNodup e hin
      · rw [heq]
        rw [List.map_append, List.nodup_append]
        refine ⟨inv_recs_nodup hinv q.object, hrecn, ?_⟩
        intro a ha hax
        have haI := inv_recs_sub hinv q.object a ha
        rw [List.mem_map] at hax
        obtain ⟨r, hr, hrid⟩ := hax
        have := hfree r hr
        rw [hrid] at this
        have htrue : ((List.lookup q.object st.fetchedIdsMap).getD []).contains a
            = true := List.elem_iff.mpr haI
        rw [htrue] at this
        cases this
    · intro e he
      rcases mem_jsSet_entry_nodup hinv.recsKeysNodup he with ⟨hin, hne⟩ | heq
      · intro id hid
        rw [lookup_jsSet_ne st.fetchedIdsMap q.object e.1 _ hne]
        exact hinv.recsSub e hin id hid
      · rw [heq]
        intro id hid
        rw [lookup_jsSet_self]
        rw [List.map_append, List.mem_append] at hid
        rcases hid with hold | hnew
        · exact foldAdd_mem_start records _ id
            (inv_recs_sub hinv q.object id hold)
        · rw [List.mem_map] at hnew
          obtain ⟨r, hr, hrid⟩ := hnew
          rw [← hrid]
          exact foldAdd_mem_rec records _ r hr

/-- The query walker: a step that succeeds and preserves an invariant gives
a run that succeeds and preserves it. -/
theorem dumpQueriesGo_inv (step : DumpState → DumpQuery → Except String DumpState)
    (Inv : DumpState → Prop) :
    ∀ (qs : List DumpQuery),
      (∀ st q, q ∈ qs → Inv st → ∃ st', step st q = Except.ok st' ∧ Inv st') →
      ∀ st, Inv st → ∃ st', dumpQueriesGo step qs st = Except.ok st' ∧ Inv st' := by
  intro qs
  induction qs with
  | nil =>
    intro hstep st hinv
    exact ⟨st, rfl, hinv⟩
  | cons q rest ih =>
    intro hstep st hinv
    obtain ⟨st1, h1, hinv1⟩ := hstep st q (List.mem_cons_self _ _) hinv
    unfold dumpQueriesGo
    rw [h1]
    exact ih (fun st q hm hi => hstep st q (List.mem_cons_of_mem _ hm) hi) st1 hinv1

/-- The related expansion phase succeeds and preserves the invariant. -/
theorem fetchAllRelated_ok (db : TargetDB) (queries : List DumpQuery)
    (d : Describer) (o : DumpOptions)
    (hq : ∀ q ∈ queries, q.target = "related" →
      (d.findSObjectDescription q.object).isSome = true)
    (st : DumpState) (hinv : DumpInv db st) :
    ∃ st1, fetchAllRelatedRecords db queries st d o = Except.ok st1
      ∧ DumpInv db st1 := by
  unfold fetchAllRelatedRecords
  exact dumpQueriesGo_inv (relatedStep db d o) (DumpInv db) queries
    (fun st q hm hi => relatedStep_ok db d o st q (hq q hm) hi) st hinv

/-- The dependent expansion phase succeeds and preserves the invariant. -/
theorem fetchAllDependent_ok (db : TargetDB) (queries : List DumpQuery)
    (d : Describer) (o : DumpOptions)
    (hq : ∀ q ∈ queries, q.target = "related" →
      (d.findSObjectDescription q.object).isSome = true)
    (hdb : ∀ e ∈ db, (e.2.map recId).Nodup)
    (st : DumpState) (hinv : DumpInv db st) :
    ∃ st2, fetchAllDependentRecords db queries st d o = Except.ok st2
      ∧ DumpInv db st2 := by
  unfold fetchAllDependentRecords
  have hinv0 : DumpInv db { st with newlyFetchedIdsMap := [] } :=
    ⟨hinv.keysNodup, hinv.recsKeysNodup, hinv.idsNodup, hinv.idsSub,
     hinv.recsNodup, hinv.recsSub⟩
  exact dumpQueriesGo_inv (dependentStep db d o) (DumpInv db) queries
    (fun st q hm hi => dependentStep_ok db d o st q (hq q hm) hdb hi) _ hinv0

/-- The seed phase establishes the invariant. -/
theorem queryPrimary_inv (db : TargetDB) (seeds : DumpQuery → List DumpRecord)
    (queries : List DumpQuery) (o : DumpOptions)
    (hseed : ∀ q ∈ queries, ((seeds q).map recId).Nodup
      ∧ ∀ r ∈ seeds q, r ∈ dbGet db q.object) :
    DumpInv db (queryPrimaryRecords seeds queries o) := by
  unfold queryPrimaryRecords
  have hbase : DumpInv db ⟨[], [], []⟩ :=
    ⟨List.nodup_nil, List.nodup_nil, (by intro e he; cases he),
     (by intro e he; cases he), (by intro e he; cases he),
     (by intro e he; cases he)⟩
  revert hseed
  suffices h : ∀ (qs : List DumpQuery),
      (∀ q ∈ qs, ((seeds q).map recId).Nodup ∧ ∀ r ∈ seeds q, r ∈ dbGet db q.object) →
      ∀ st : DumpState, DumpInv db st →
      DumpInv db (qs.foldl
        (fun (st : DumpState) query =>
          if query.target ≠ "query" then st
          else
            { st with
                fetchedRecordsMap := jsSet st.fetchedRecordsMap query.object
                  (applyMaxFetch o (seeds query)),
                fetchedIdsMap := jsSet st.fetchedIdsMap query.object
                  ((applyMaxFetch o (seeds query)).foldl
                    (fun ids r => jsAdd ids (recId r)) []) })
        st) by
    intro hseed
    exact h queries hseed ⟨[], [], []⟩ hbase
  intro qs
  induction qs with
  | nil => intro hs st hinv; exact hinv
  | cons q rest ih =>
    intro hs st hinv
    rw [List.foldl_cons]
    refine ih (fun q' hm => hs q' (List.mem_cons_of_mem _ hm)) _ ?_
    by_cases ht : q.target ≠ "query"
    · rw [if_pos ht]
      exact hinv
    · rw [if_neg ht]
      have hnd := (hs q (List.mem_cons_self _ _)).1
      have hsub := (hs q (List.mem_cons_self _ _)).2
      refine ⟨?_, ?_, ?_, ?_, ?_, ?_⟩
      · exact jsSet_keys_nodup hinv.keysNodup
      · exact jsSet_keys_nodup hinv.recsKeysNodup
      · intro e he
        rcases mem_jsSet_entry_nodup hinv.keysNodup he with ⟨hin, hne⟩ | heq
        · exact hinv.idsNodup e hin
        · rw [heq]
          exact foldAdd_nodup _ [] List.nodup_nil
      · intro e he
        rcases mem_jsSet_entry_nodup hinv.keysNodup he with ⟨hin, hne⟩ | heq
        · exact hinv.idsSub e hin
        · rw [heq]
          intro id hid
          rcases mem_foldAdd _ [] id hid with hm | ⟨r, hr, hrid⟩
          · cases hm
          · rw [← hrid]
            refine List.mem_map.mpr ⟨r, ?_, rfl⟩
            exact hsub r (List.mem_of_mem_take hr)
      · intro e he
        rcases mem_jsSet_entry_nodup hinv.recsKeysNodup he with ⟨hin, hne⟩ | heq
        · exact hinv.recsNodup e hin
        · rw [heq]
          exact hnd.sublist ((List.take_sublist _ _).map recId)
      · intro e he
        rcases mem_jsSet_entry_nodup hinv.recsKeysNodup he with ⟨hin, hne⟩ | heq
        · intro id hid
          rw [lookup_jsSet_ne st.fetchedIdsMap q.object e.1 _ hne]
          exact hinv.recsSub e hin id hid
        · rw [heq]
          intro id hid
          rw [lookup_jsSet_self]
          rw [List.mem_map] at hid
          obtain ⟨r, hr, hrid⟩ := hid
          rw [← hrid]
          exact foldAdd_mem_rec _ [] r hr

/-- Under the invariant the loop reaches its fixpoint within the fuel
`totalDbCount db + 1 - prevCount`. -/
theorem dumpLoop_ok (db : TargetDB) (queries : List DumpQuery) (d : Describer)
    (o : DumpOptions)
    (hq : ∀ q ∈ queries, q.target = "related" →
      (d.findSObjectDescription q.object).isSome = true)
    (hdb : ∀ e ∈ db, (e.2.map recId).Nodup) :
    ∀ (fuel prev : Nat) (st : DumpState), DumpInv db st →
      prev ≤ totalDbCount db → totalDbCount db + 1 ≤ prev + fuel →
      ∃ st', dumpLoop db queries d o fuel prev st = Except.ok st'
        ∧ DumpInv db st' := by
  intro fuel
  induction fuel with
  | zero =>
    intro prev st hinv hple hge
    omega
  | succ fuel ih =>
    intro prev st hinv hple hge
    unfold dumpLoop
    by_cases hc : prev < calcFetchedCount st.fetchedIdsMap
    · rw [if_pos hc]
      obtain ⟨st1, h1, hinv1⟩ := fetchAllRelated_ok db queries d o hq st hinv
      rw [h1]
      dsimp only
      obtain ⟨st2, h2, hinv2⟩ := fetchAllDependent_ok db queries d o hq hdb st1 hinv1
      rw [h2]
      dsimp only
      have hcle := count_le_total hinv
      exact ih (calcFetchedCount st.fetchedIdsMap) st2 hinv2 hcle (by omega)
    · rw [if_neg hc]
      exact ⟨st, rfl, hinv⟩

/-- Extra fuel never changes a successful loop run. -/
theorem dumpLoop_fuel_mono (db : TargetDB) (queries : List DumpQuery)
    (d : Describer) (o : DumpOptions) :
    ∀ (fuel extra prev : Nat) (st : DumpState) (r : DumpState),
      dumpLoop db queries d o fuel prev st = Except.ok r →
      dumpLoop db queries d o (fuel + extra) prev st = Except.ok r := by
  intro fuel
  induction fuel with
  | zero => intro extra prev st r h; cases h
  | succ fuel ih =>
    intro extra prev st r h
    have hshift : fuel + 1 + extra = (fuel + extra) + 1 := by omega
    rw [hshift]
    unfold dumpLoop at h ⊢
    by_cases hc : prev < calcFetchedCount st.fetchedIdsMap
    · rw [if_pos hc] at h ⊢
      split at h
      · cases h
      · rename_i st1 heq1
        split at h
        · cases h
        · rename_i st2 heq2
          exact ih extra _ st2 r h
    · rw [if_neg hc] at h ⊢
      exact h

/-- C7: the dump closure loop terminates.  Both expansion phases add only
records whose ids are outside the per-object fetched sets, so under the
invariant the total fetched count never exceeds the number of target-side
records; the loop continues only while the count strictly grew, so
`totalDbCount db + 1` rounds of fuel reach the fixpoint (extra fuel changes
nothing) and the final count stays bounded by the database size.
Hypotheses: every `related` query's object is described (otherwise the round
aborts with an error instead of looping), target-side per-object record ids
are duplicate-free, and each seed query's records are target records with
duplicate-free ids. -/
theorem C7_dump_loop_terminates (db : TargetDB)
    (seedRecords : DumpQuery → List DumpRecord) (queries : List DumpQuery)
    (d : Describer) (o : DumpOptions)
    (hq : ∀ q ∈ queries, q.target = "related" →
      (d.findSObjectDescription q.object).isSome = true)
    (hdb : ∀ e ∈ db, (e.2.map recId).Nodup)
    (hseed : ∀ q ∈ queries, ((seedRecords q).map recId).Nodup
      ∧ ∀ r ∈ seedRecords q, r ∈ dbGet db q.object) :
    ∃ st, dumpClosure db seedRecords queries d o (totalDbCount db + 1) =
        Except.ok st
      ∧ (∀ extra, dumpClosure db seedRecords queries d o
          (totalDbCount db + 1 + extra) = Except.ok st)
      ∧ calcFetchedCount st.fetchedIdsMap ≤ totalDbCount db := by
  have hinv0 : DumpInv db (queryPrimaryRecords seedRecords queries o) :=
    queryPrimary_inv db seedRecords queries o hseed
  have hinv0' : DumpInv db
      { queryPrimaryRecords seedRecords queries o with
        newlyFetchedIdsMap :=
          (queryPrimaryRecords seedRecords queries o).fetchedIdsMap } :=
    ⟨hinv0.keysNodup, hinv0.recsKeysNodup, hinv0.idsNodup, hinv0.idsSub,
     hinv0.recsNodup, hinv0.recsSub⟩
  obtain ⟨st, hst, hinvst⟩ := dumpLoop_ok db queries d o hq hdb
    (totalDbCount db + 1) 0 _ hinv0' (Nat.zero_le _) (by omega)
  refine ⟨st, ?_, ?_, count_le_total hinvst⟩
  · unfold dumpClosure
    exact hst
  · intro extra
    unfold dumpClosure
    exact dumpLoop_fuel_mono db queries d o (totalDbCount db + 1) extra 0 _ st hst

/-- Witness for C7 on a two-object database with one dependent reference. -/
theorem C7_dump_loop_terminates_witness :
    (∀ q ∈ c7Queries, q.target = "related" →
      (describerEx.findSObjectDescription q.object).isSome = true)
    ∧ (∀ e ∈ c7Db, (e.2.map recId).Nodup)
    ∧ (∀ q ∈ c7Queries, ((c7Seed q).map recId).Nodup
        ∧ ∀ r ∈ c7Seed q, r ∈ dbGet c7Db q.object)
    ∧ ∃ st, dumpClosure c7Db c7Seed c7Queries describerEx ⟨none, none, []⟩
          (totalDbCount c7Db + 1) = Except.ok st
        ∧ (∀ extra, dumpClosure c7Db c7Seed c7Queries describerEx
            ⟨none, none, []⟩ (totalDbCount c7Db + 1 + extra) = Except.ok st)
        ∧ calcFetchedCount st.fetchedIdsMap ≤ totalDbCount c7Db :=
  ⟨by decide, by decide, by decide,
    C7_dump_loop_terminates c7Db c7Seed c7Queries describerEx ⟨none, none, []⟩
      (by decide) (by decide) (by decide)⟩

end SMA
